import Mathlib

/-!
# Verification of the routish route-resolution engine

A shallow embedding of the runtime core of the `routish` library:
JavaScript runtime values, the validator/parser adapter (`runParser`,
`createObjectParser` from `src/parser.ts`), the route trie builder
(`buildTree`), the proxy-based navigation objects (`createProxy`,
`createRootProxy`), the URL serializer (`buildPath`, `buildPattern`),
and the named-route registry (`buildNamedRoutes`, `getRouteByName`)
from `src/index.ts`.  JavaScript records are modelled as association
lists in property-iteration order; thrown exceptions are modelled with
`Except String`.
-/

namespace Routish

/-- A JavaScript runtime value, restricted to the shapes that flow
through the engine: strings, (integer) numbers, `undefined`, and plain
records in property-iteration order. -/
inductive Value : Type where
  | str (s : String)
  | num (n : Int)
  | undef
  | obj (fields : List (String × Value))

/-- `String(v)` coercion as used by the engine (template literals and
explicit `String(...)` calls). -/
def jsString : Value → String
  | .str s => s
  | .num n => toString n
  | .undef => "undefined"
  | .obj _ => "[object Object]"

/-- `String(record[key])`: indexing a missing key yields `undefined`,
which stringifies to `"undefined"`. -/
def jsStringOpt : Option Value → String
  | some v => jsString v
  | none => "undefined"

mutual

/-- `JSON.stringify` on the value shapes above (used by `runParser` for
the io-ts decode-failure message).  `JSON.stringify(undefined)` is the
value `undefined`, which the template literal turns into `"undefined"`. -/
def jsonStringify : Value → String
  | .str s => "\"" ++ s ++ "\""
  | .num n => toString n
  | .undef => "undefined"
  | .obj fs => "\x7b" ++ jsonFields fs ++ "\x7d"

/-- Comma-separated JSON rendering of a record's fields. -/
def jsonFields : List (String × Value) → String
  | [] => ""
  | [(k, v)] => "\"" ++ k ++ "\":" ++ jsonStringify v
  | (k, v) :: rest => "\"" ++ k ++ "\":" ++ jsonStringify v ++ "," ++ jsonFields rest

end

/-- The two-variant result of an io-ts style `decode` call:
`\x7b _tag: 'Left', left \x7d` or `\x7b _tag: 'Right', right \x7d`. -/
inductive EitherV : Type where
  | left (l : Value)
  | right (r : Value)

/-- The structural shape of a non-function validator object: which of
the three recognised operations (`parse`, `validateSync`, `decode`) it
exposes.  Underlying calls may throw, modelled with `Except`. -/
structure ParserObj : Type where
  parse : Option (Value → Except String Value)
  validateSync : Option (Value → Except String Value)
  decode : Option (Value → EitherV)

/-- A validator value: either directly invocable (`typeof parser ===
'function'`) or an object inspected structurally for `parse`,
`validateSync`, `decode`. -/
inductive Parser : Type where
  | func (f : Value → Except String Value)
  | obj (o : ParserObj)

/-- `runParser` from `src/parser.ts`: dispatch on the validator's shape
in priority order function, `.parse`, `.validateSync`, `.decode`. -/
def runParser : Parser → Value → Except String Value
  | .func f, v => f v
  | .obj o, v =>
    match o.parse with
    | some p => p v
    | none =>
      match o.validateSync with
      | some vs => vs v
      | none =>
        match o.decode with
        | some d =>
          match d v with
          | .right r => .ok r
          | .left l => .error ("Decode failed: " ++ jsonStringify l)
        | none =>
          .error "Invalid parser: must be a function or have .parse(), .validateSync(), or .decode() method"

/-- Association-list lookup, modelling JavaScript property access
`record[key]` on records kept in iteration order. -/
def lookupA {α : Type} : List (String × α) → String → Option α
  | [], _ => none
  | (k, v) :: rest, key => if k = key then some v else lookupA rest key

/-- Association-list update, modelling JavaScript property assignment:
an existing key keeps its position, a new key is appended. -/
def setA {α : Type} : List (String × α) → String → α → List (String × α)
  | [], key, v => [(key, v)]
  | (k, w) :: rest, key, v =>
    if k = key then (key, v) :: rest else (k, w) :: setA rest key v

/-- The body of the combined parser built by `createObjectParser`: walk
the parser map in iteration order, validate exactly the keys present in
the input record, skip absent keys, collect the transformed values. -/
def objParse (m : List (String × Parser)) (r : List (String × Value)) :
    Except String (List (String × Value)) :=
  match m with
  | [] => .ok []
  | (k, p) :: rest =>
    match lookupA r k with
    | none => objParse rest r
    | some raw =>
      match runParser p raw with
      | .error e => .error e
      | .ok v =>
        match objParse rest r with
        | .error e => .error e
        | .ok out => .ok ((k, v) :: out)

/-- Viewing a parser's output value as a record: `Object.entries` /
property access on a non-object JavaScript value sees no entries. -/
def valueToRecord : Value → List (String × Value)
  | .obj r => r
  | _ => []

/-- `createObjectParser` from `src/parser.ts`: wraps `objParse` as a
`.parse`-shaped validator over record values. -/
def createObjectParser (m : List (String × Parser)) : Parser :=
  .obj ⟨some (fun v =>
    match v with
    | .obj r => (objParse m r).map Value.obj
    | _ => .error "TypeError: cannot enumerate a non-object"), none, none⟩

/-- A route's metadata bag (opaque key-value record). -/
abbrev Meta := List (String × Value)

/-- A query record, in iteration (insertion) order. -/
abbrev QueryParams := List (String × Value)

/-- `seg.startsWith(':')` on a path segment. -/
def startsColon (s : String) : Bool :=
  match s.data with
  | [] => false
  | c :: _ => c == ':'

/-- `seg.slice(1)`: drop the leading character. -/
def tailStr (s : String) : String := ⟨s.data.drop 1⟩

/-- `path.endsWith('/')`. -/
def endsSlash (s : String) : Bool :=
  match s.data.getLast? with
  | some '/' => true
  | _ => false

/-- `str.split('/')` at the character level (structural recursion so
that concrete route tables evaluate inside the kernel). -/
def splitOnSlash : List Char → List Char → List (List Char)
  | [], cur => [cur.reverse]
  | c :: rest, cur =>
    if c = '/' then cur.reverse :: splitOnSlash rest []
    else splitOnSlash rest (c :: cur)

/-- `path.split('/').filter(Boolean)`: split on `/`, drop empty
segments. -/
def splitSegs (p : String) : List String :=
  ((splitOnSlash p.data []).map (fun cs => String.mk cs)).filter (fun s => !(s == ""))

/-- A trie node (`TreeNode` in `src/types.ts`): children keyed by
segment (with the reserved sentinel key `$param` for the parametric
branch), the parameter name and validator for a parametric node, the
query validator and metadata of a terminal route, and the terminal
flag. -/
inductive TreeNode : Type where
  | mk (children : List (String × TreeNode)) (paramName : Option String)
       (paramParser : Option Parser) (queryParser : Option Parser)
       (meta : Option Meta) (isTerminal : Bool)

def TreeNode.children : TreeNode → List (String × TreeNode)
  | .mk c _ _ _ _ _ => c

def TreeNode.paramName : TreeNode → Option String
  | .mk _ pn _ _ _ _ => pn

def TreeNode.paramParser : TreeNode → Option Parser
  | .mk _ _ pp _ _ _ => pp

def TreeNode.queryParser : TreeNode → Option Parser
  | .mk _ _ _ qp _ _ => qp

def TreeNode.meta : TreeNode → Option Meta
  | .mk _ _ _ _ m _ => m

def TreeNode.isTerminal : TreeNode → Bool
  | .mk _ _ _ _ _ t => t

/-- A freshly created trie node (`\x7b children: \x7b\x7d, paramName,
paramParser: null, queryParser: null, meta: null, isTerminal: false \x7d`). -/
def freshNode (pn : Option String) : TreeNode := .mk [] pn none none none false

/-- A route definition after normalization (`RouteConfig`): a bare
string becomes `\x7b path \x7d`. -/
structure RouteConfig : Type where
  path : String
  params : List (String × Parser) := []
  query : Option (List (String × Parser)) := none
  name : Option String := none
  meta : Option Meta := none

/-- A route definition as supplied: a bare path string or a config. -/
inductive RouteDefinition : Type where
  | strD (p : String)
  | cfgD (c : RouteConfig)

/-- Normalize a definition (`typeof def === 'string' ? \x7b path: def \x7d : def`). -/
def toConfig : RouteDefinition → RouteConfig
  | .strD p => ⟨p, [], none, none, none⟩
  | .cfgD c => c

/-- Mark the node reached by a definition's walk: set `isTerminal`,
attach the query validator and metadata when the config has them. -/
def markTerminal (cfg : RouteConfig) : TreeNode → TreeNode
  | .mk ch pn pp qp m _ =>
    .mk ch pn pp
      (match cfg.query with
       | some q => some (createObjectParser q)
       | none => qp)
      (match cfg.meta with
       | some mm => some mm
       | none => m)
      true

/-- `if (isParam && config.params?.[paramName]) node.paramParser = ...`. -/
def applyParamParser : Option Parser → TreeNode → TreeNode
  | some pp, .mk ch pn _ qp m t => .mk ch pn (some pp) qp m t
  | none, t => t

/-- Insert one definition's (remaining) segments below a node,
mirroring the walk in `buildTree`: static segments index by their
literal name, parametric segments by the sentinel key `$param`; an
existing child is reused (`??=`), keeping its `paramName`; the
parameter validator of the walked definition overwrites the node's. -/
def insertSegs (cfg : RouteConfig) : TreeNode → List String → TreeNode
  | t, [] => markTerminal cfg t
  | .mk ch pn pp qp m term, seg :: rest =>
    let isP := startsColon seg
    let key := if isP then "$param" else seg
    let pname := if isP then some (tailStr seg) else none
    let child := (lookupA ch key).getD (freshNode pname)
    let child := if isP then applyParamParser (lookupA cfg.params (tailStr seg)) child else child
    let child := insertSegs cfg child rest
    .mk (setA ch key child) pn pp qp m term

/-- Insert one definition into the trie.  A zero-segment path (root
`/`) marks the root itself terminal; `insertSegs _ t [] = markTerminal _ t`
makes both branches of `buildTree` one equation. -/
def insertOne (t : TreeNode) (d : RouteDefinition) : TreeNode :=
  insertSegs (toConfig d) t (splitSegs (toConfig d).path)

/-- `buildTree` from `src/index.ts`. -/
def buildTree (defs : List RouteDefinition) : TreeNode :=
  defs.foldl insertOne (freshNode none)

/-! ## URL serializer -/

/-- A resolved path segment carried by a navigation object. -/
inductive Segment : Type where
  | static (name : String)
  | param (name : String) (value : String)

/-- The literal text a segment contributes to a rendered path. -/
def segValue : Segment → String
  | .static n => n
  | .param _ v => v

/-- The literal text a segment contributes to a pattern. -/
def segPattern : Segment → String
  | .static n => n
  | .param n _ => ":" ++ n

/-- `array.join('/')`. -/
def joinSlash : List String → String
  | [] => ""
  | [s] => s
  | s :: rest => s ++ "/" ++ joinSlash rest

/-- The characters `URLSearchParams` leaves unencoded
(`A-Za-z0-9*-._`). -/
def formSafe (c : Char) : Bool :=
  c.isAlphanum || c = '*' || c = '-' || c = '.' || c = '_'

/-- Upper-case hex digit. -/
def hexDigit (n : Nat) : Char :=
  if n < 10 then Char.ofNat (48 + n) else Char.ofNat (55 + n)

/-- Percent-encode one UTF-8 byte. -/
def encodeByte (b : Nat) : String :=
  "%" ++ String.singleton (hexDigit (b / 16)) ++ String.singleton (hexDigit (b % 16))

/-- The UTF-8 bytes of a character (as `Nat`s). -/
def utf8Bytes (c : Char) : List Nat :=
  let n := c.toNat
  if n < 128 then [n]
  else if n < 2048 then [192 + n / 64, 128 + n % 64]
  else if n < 65536 then [224 + n / 4096, 128 + (n / 64) % 64, 128 + n % 64]
  else [240 + n / 262144, 128 + (n / 4096) % 64, 128 + (n / 64) % 64, 128 + n % 64]

/-- `application/x-www-form-urlencoded` encoding of one character. -/
def formEncodeChar (c : Char) : String :=
  if formSafe c then String.singleton c
  else if c = ' ' then "+"
  else String.join ((utf8Bytes c).map encodeByte)

/-- `application/x-www-form-urlencoded` encoding of a string, as
`URLSearchParams` applies to each key and value. -/
def formEncode (s : String) : String :=
  String.join (s.data.map formEncodeChar)

/-- `new URLSearchParams(entries.map(([k,v]) => [k, String(v)])).toString()`:
keys and stringified values encoded and joined in iteration order. -/
def queryString (q : QueryParams) : String :=
  String.intercalate "&" (q.map (fun kv => formEncode kv.1 ++ "=" ++ formEncode (jsString kv.2)))

/-- `buildPath` from `src/index.ts`: `'/' + values.join('/') +
(trailingSlash ? '/' : '')`, then the query string when the query
record exists and has keys. -/
def buildPath (segments : List Segment) (query : Option QueryParams) (ts : Bool) : String :=
  let path := "/" ++ joinSlash (segments.map segValue) ++ (if ts then "/" else "")
  match query with
  | none => path
  | some q => if q.isEmpty then path else path ++ "?" ++ queryString q

/-- `buildPattern` from `src/index.ts`: like `buildPath` but emitting
`:name` for parametric segments and ignoring the query. -/
def buildPattern (segments : List Segment) (ts : Bool) : String :=
  "/" ++ joinSlash (segments.map segPattern) ++ (if ts then "/" else "")

/-! ## Navigation objects (`createProxy` / `createRootProxy`) -/

/-- The state a navigation proxy closes over: the resolved segments so
far, the accumulated query, the current trie node, and the metadata
passed at creation. -/
structure NavState : Type where
  segments : List Segment
  query : Option QueryParams
  tree : TreeNode
  meta : Option Meta

/-- The property names `createProxy`'s get trap intercepts before the
child lookup. -/
def reservedProps : List String :=
  ["__segments", "__query", "getMeta", "toString", "toPattern", "then"]

/-- The property names `createRootProxy`'s get trap intercepts. -/
def rootReserved : List String := "$index" :: reservedProps

/-- Descend by static name (`createProxy`'s get trap): look the name up
among the static children, falling back to the parametric child's
static children; absent names give `undefined` (`none`).  The new
navigation object appends a static segment, resets the query, and binds
the child. -/
def navGet (nav : NavState) (prop : String) : Option NavState :=
  if prop ∈ reservedProps then none
  else
    let paramNode := lookupA nav.tree.children "$param"
    let child :=
      match lookupA nav.tree.children prop with
      | some c => some c
      | none => paramNode.bind (fun pn => lookupA pn.children prop)
    child.map (fun c => ⟨nav.segments ++ [.static prop], none, c, c.meta⟩)

/-- Run the parametric child's validator on the supplied raw value, if
it has one (`paramNode.paramParser ? runParser(...) : value`). -/
def resolveParamValue (pn : TreeNode) (v : Value) : Except String Value :=
  match pn.paramParser with
  | some pp => runParser pp v
  | none => .ok v

/-- Validate the optional query supplied with a parametric call through
the child's query validator
(`maybeQuery && paramNode.queryParser ? runParser(...) : maybeQuery`). -/
def resolveCallQuery (pn : TreeNode) (mq : Option QueryParams) :
    Except String (Option QueryParams) :=
  match mq, pn.queryParser with
  | some q, some qp =>
    match runParser qp (.obj q) with
    | .error e => .error e
    | .ok vv => .ok (some (valueToRecord vv))
  | some q, none => .ok (some q)
  | none, _ => .ok none

/-- Calling a navigation proxy (`createProxy`'s `fn`): a record argument
is a query-only call on the current node; a scalar argument descends the
parametric edge, running the parameter validator and stringifying the
result; anything else is a usage error. -/
def navCall (nav : NavState) (v : Value) (mq : Option QueryParams) : Except String NavState :=
  match v with
  | .obj q =>
    match nav.tree.queryParser with
    | some qp =>
      match runParser qp (.obj q) with
      | .error e => .error e
      | .ok validated => .ok ⟨nav.segments, some (valueToRecord validated), nav.tree, nav.tree.meta⟩
    | none => .ok ⟨nav.segments, some q, nav.tree, nav.tree.meta⟩
  | .str _ | .num _ =>
    match lookupA nav.tree.children "$param" with
    | some pn =>
      match resolveParamValue pn v with
      | .error e => .error e
      | .ok value =>
        match resolveCallQuery pn mq with
        | .error e => .error e
        | .ok validated =>
          .ok ⟨nav.segments ++ [.param (pn.paramName.getD "null") (jsString value)],
               validated, pn, pn.meta⟩
    | none => .error "Invalid arguments"
  | .undef => .error "Invalid arguments"

/-- `toString()` on a navigation proxy: legal only on a terminal node,
otherwise throws naming the attempted pattern. -/
def navToString (nav : NavState) (ts : Bool) : Except String String :=
  if nav.tree.isTerminal then .ok (buildPath nav.segments nav.query ts)
  else .error ("\"" ++ buildPattern nav.segments false ++
    "\" is not a defined route. Did you forget to add it to createRoutes()?")

/-- `toPattern()` on a navigation proxy. -/
def navToPattern (nav : NavState) (ts : Bool) : Except String String :=
  if nav.tree.isTerminal then .ok (buildPattern nav.segments ts)
  else .error ("\"" ++ buildPattern nav.segments false ++
    "\" is not a defined route. Did you forget to add it to createRoutes()?")

/-- `getMeta()` on a navigation proxy: `(meta ?? tree.meta) ?? undefined`. -/
def navGetMeta (nav : NavState) : Option Meta :=
  match nav.meta with
  | some m => some m
  | none => nav.tree.meta

/-- Descend by static name from the root proxy (`createRootProxy`'s get
trap): the same child lookup with the root's reserved names. -/
def rootGet (t : TreeNode) (prop : String) : Option NavState :=
  if prop ∈ rootReserved then none
  else
    let paramNode := lookupA t.children "$param"
    let child :=
      match lookupA t.children prop with
      | some c => some c
      | none => paramNode.bind (fun pn => lookupA pn.children prop)
    child.map (fun c => ⟨[.static prop], none, c, c.meta⟩)

/-- Calling the root proxy with a scalar value: descend the root's
parametric edge (`createRootProxy`'s `fn`, non-object branch). -/
def rootCallValue (t : TreeNode) (v : Value) (mq : Option QueryParams) : Except String NavState :=
  match v with
  | .str _ | .num _ =>
    match lookupA t.children "$param" with
    | some pn =>
      match resolveParamValue pn v with
      | .error e => .error e
      | .ok value =>
        match resolveCallQuery pn mq with
        | .error e => .error e
        | .ok validated =>
          .ok ⟨[.param (pn.paramName.getD "null") (jsString value)], validated, pn, pn.meta⟩
    | none => .error "Invalid arguments"
  | _ => .error "Invalid arguments"

/-- `toString()` on the un-descended root proxy always throws the
"use the root accessor" error. -/
def rootToString : Except String String :=
  .error "Cannot call toString() on routes directly. Use routes.$index for the root route."

/-- `toPattern()` on the un-descended root proxy always throws. -/
def rootToPattern : Except String String :=
  .error "Cannot call toPattern() on routes directly. Use routes.$index for the root route."

/-- `routes.$index.toString()`: renders the root node itself, legal only
when the root is terminal. -/
def indexToString (t : TreeNode) (ts : Bool) : Except String String :=
  if t.isTerminal then .ok (buildPath [] none ts)
  else .error "\"/\" is not a defined route. Define it explicitly: createRoutes([\x27/\x27, ...])"

/-- `routes.$index.toPattern()`. -/
def indexToPattern (t : TreeNode) (_ts : Bool) : Except String String :=
  if t.isTerminal then .ok "/"
  else .error "\"/\" is not a defined route. Define it explicitly: createRoutes([\x27/\x27, ...])"

/-- `routes.$index.getMeta()`. -/
def indexGetMeta (t : TreeNode) : Option Meta := t.meta

/-- The value-like route node returned by `createRouteNode`: its
`toString` / `toPattern` / `getMeta` results. -/
structure RouteNodeR : Type where
  segments : List Segment
  query : Option QueryParams
  meta : Option Meta
  pathStr : String
  patternStr : String

/-- `createRouteNode` from `src/index.ts`. -/
def createRouteNode (segments : List Segment) (query : Option QueryParams)
    (meta : Option Meta) (ts : Bool) : RouteNodeR :=
  ⟨segments, query, meta, buildPath segments query ts, buildPattern segments ts⟩

/-- `createIndexNode`: the query-call operation exposed through
`routes.$index(...)`, validating the query through the root's query
validator and rendering the root node without a terminal check. -/
def createIndexNode (t : TreeNode) (ts : Bool) (q : Option QueryParams) :
    Except String RouteNodeR :=
  match q, t.queryParser with
  | some qq, some qp =>
    match runParser qp (.obj qq) with
    | .error e => .error e
    | .ok v => .ok (createRouteNode [] (some (valueToRecord v)) t.meta ts)
  | some qq, none => .ok (createRouteNode [] (some qq) t.meta ts)
  | none, _ => .ok (createRouteNode [] none t.meta ts)

/-- The navigation objects reachable by descending from a route table's
root: a first step off the root proxy (static descent or parametric
call), extended by any sequence of descents, parametric calls and
query-only calls. -/
inductive NavReach (t : TreeNode) : NavState → Prop where
  | rootStatic (prop : String) (nav : NavState) :
      rootGet t prop = some nav → NavReach t nav
  | rootValue (v : Value) (mq : Option QueryParams) (nav : NavState) :
      rootCallValue t v mq = .ok nav → NavReach t nav
  | getStep (nav : NavState) (prop : String) (nav' : NavState) :
      NavReach t nav → navGet nav prop = some nav' → NavReach t nav'
  | callStep (nav : NavState) (v : Value) (mq : Option QueryParams) (nav' : NavState) :
      NavReach t nav → navCall nav v mq = .ok nav' → NavReach t nav'

/-! ## Named route registry -/

/-- Locate the first occurrence of `pat`, as `String.prototype.replace`
with a plain-string pattern does: `some (before, after)` splits the
haystack around the first match, `none` means no occurrence. -/
def findSplit (pat : List Char) : List Char → Option (List Char × List Char)
  | [] => if pat.isEmpty then some ([], []) else none
  | c :: rest =>
    if pat.isPrefixOf (c :: rest) then some ([], (c :: rest).drop pat.length)
    else
      match findSplit pat rest with
      | some (pre, post) => some (c :: pre, post)
      | none => none

/-- `GetSubstitution` for a plain-string pattern: in the replacement,
`$$` produces a dollar, `$&` the matched text, dollar-backquote the
portion of the string before the match, dollar-apostrophe the portion
after it; any other dollar stays literal (a string pattern has no
capture groups, so `$n` and `$<name>` are untouched). -/
def expandDollar (matched pre post : List Char) : List Char → List Char
  | [] => []
  | [c] => [c]
  | c :: d :: rest =>
    if c = '$' then
      if d = '$' then '$' :: expandDollar matched pre post rest
      else if d = '&' then matched ++ expandDollar matched pre post rest
      else if d = Char.ofNat 96 then pre ++ expandDollar matched pre post rest
      else if d = Char.ofNat 39 then post ++ expandDollar matched pre post rest
      else c :: expandDollar matched pre post (d :: rest)
    else c :: expandDollar matched pre post (d :: rest)

/-- `String.prototype.replace` with a plain-string pattern, at the
character level: splice the `$`-expanded replacement over the first
occurrence, leave the string unchanged when the pattern does not
occur. -/
def charReplaceFirst (hay pat repl : List Char) : List Char :=
  match findSplit pat hay with
  | some (pre, post) => pre ++ expandDollar pat pre post repl ++ post
  | none => hay

/-- `s.replace(pat, repl)` for a plain-string pattern. -/
def replaceFirst (s pat repl : String) : String :=
  ⟨charReplaceFirst s.data pat.data repl.data⟩

/-- A `NamedRoute` entry (`buildNamedRoutes`): the literal pattern, the
parameter names in occurrence order, the combined parameter validator,
the query validator, the metadata and the table's options. -/
structure NamedRoute : Type where
  pattern : String
  paramNames : List String
  paramParser : Option Parser
  queryParser : Option Parser
  meta : Option Meta
  trailingSlash : Bool

/-- One step of `buildNamedRoutes`'s parameter collection: a `:`-led
segment records its name and, when the definition's `params` has a
validator for it, copies that validator into the sub-map. -/
def collectStep (pmap : List (String × Parser))
    (acc : List String × List (String × Parser)) (seg : String) :
    List String × List (String × Parser) :=
  if startsColon seg then
    let n := tailStr seg
    (acc.1 ++ [n],
     match lookupA pmap n with
     | some p => setA acc.2 n p
     | none => acc.2)
  else acc

/-- Collect a definition's parameter names (in order) and the sub-map of
`params` validators for those names, as `buildNamedRoutes` does. -/
def collectParams (segs : List String) (pmap : List (String × Parser)) :
    List String × List (String × Parser) :=
  segs.foldl (collectStep pmap) ([], [])

/-- `buildNamedRoutes` from `src/index.ts`: one entry per named config
definition, keyed by name (`Map.set` overwrites in place). -/
def buildNamedRoutes (defs : List RouteDefinition) (trailingSlash : Bool) :
    List (String × NamedRoute) :=
  defs.foldl
    (fun named d =>
      match d with
      | .strD _ => named
      | .cfgD c =>
        match c.name with
        | none => named
        | some nm =>
          let collected := collectParams (splitSegs c.path) c.params
          setA named nm
            ⟨c.path, collected.1,
             (if collected.2.isEmpty then none else some (createObjectParser collected.2)),
             c.query.map createObjectParser, c.meta, trailingSlash⟩)
    []

/-- The parameter-resolution step of `getRouteByName`: run the combined
parameter validator when the route has one. -/
def namedResolveParams (route : NamedRoute) (params : List (String × Value)) :
    Except String (List (String × Value)) :=
  match route.paramParser with
  | some pp =>
    match runParser pp (.obj params) with
    | .error e => .error e
    | .ok v => .ok (valueToRecord v)
  | none => .ok params

/-- The query-resolution step of `getRouteByName`. -/
def namedResolveQuery (route : NamedRoute) (query : Option QueryParams) :
    Except String (Option QueryParams) :=
  match query, route.queryParser with
  | some q, some qp =>
    match runParser qp (.obj q) with
    | .error e => .error e
    | .ok v => .ok (some (valueToRecord v))
  | some q, none => .ok (some q)
  | none, _ => .ok none

/-- The rendered value `getRouteByName` returns: its `toString`,
`toPattern` and `getMeta` results. -/
structure RenderedRoute : Type where
  path : String
  pattern : String
  meta : Option Meta
  query : Option QueryParams

/-- `getRouteByName` from `src/index.ts`: look the name up, validate
params and query, substitute each ordered parameter's stringified
resolved value for the first occurrence of `:name` in the literal
pattern, apply the trailing-slash option (only when the path does not
already end in `/`), and append the query string. -/
def getRouteByName (named : List (String × NamedRoute)) (name : String)
    (params : Option (List (String × Value))) (query : Option QueryParams) :
    Except String RenderedRoute :=
  match lookupA named name with
  | none => .error ("Route \"" ++ name ++ "\" not found")
  | some route =>
    match namedResolveParams route (params.getD []) with
    | .error e => .error e
    | .ok resolvedParams =>
      match namedResolveQuery route query with
      | .error e => .error e
      | .ok resolvedQuery =>
        let path := route.paramNames.foldl
          (fun acc p => replaceFirst acc (":" ++ p) (jsStringOpt (lookupA resolvedParams p)))
          route.pattern
        let path := if route.trailingSlash && !endsSlash path then path ++ "/" else path
        let path :=
          match resolvedQuery with
          | some q => if q.isEmpty then path else path ++ "?" ++ queryString q
          | none => path
        .ok ⟨path, route.pattern, route.meta, resolvedQuery⟩

/-! ## Basic lemmas about the association-list operations -/

theorem lookupA_setA_self {α : Type} (l : List (String × α)) (k : String) (v : α) :
    lookupA (setA l k v) k = some v := by
  induction l with
  | nil => simp [setA, lookupA]
  | cons hd tl ih =>
    obtain ⟨k', w⟩ := hd
    by_cases h : k' = k
    · simp [setA, h, lookupA]
    · simp [setA, h, lookupA, ih]

theorem lookupA_setA_ne {α : Type} (l : List (String × α)) (k k' : String) (v : α)
    (h : k ≠ k') : lookupA (setA l k v) k' = lookupA l k' := by
  induction l with
  | nil => simp [setA, lookupA, h]
  | cons hd tl ih =>
    obtain ⟨k0, w⟩ := hd
    by_cases h0 : k0 = k
    · simp [setA, h0, lookupA, h]
    · simp [setA, h0, lookupA, ih]

/-! ## C4: validator dispatch (`runParser`) -/

/-- **C4.** `runParser` dispatches by structural inspection in priority
order: directly invocable, then `parse`, then `validateSync`, then
`decode`; a `decode` success variant yields its payload, a failure
variant raises an error whose message includes the serialized failure
payload; a validator with none of the four shapes raises the
"unsupported validator" error. -/
theorem runParser_dispatch_priority :
    (∀ (f : Value → Except String Value) (v : Value),
       runParser (.func f) v = f v) ∧
    (∀ (p : Value → Except String Value) (vs : Option (Value → Except String Value))
       (d : Option (Value → EitherV)) (v : Value),
       runParser (.obj ⟨some p, vs, d⟩) v = p v) ∧
    (∀ (q : Value → Except String Value) (d : Option (Value → EitherV)) (v : Value),
       runParser (.obj ⟨none, some q, d⟩) v = q v) ∧
    (∀ (d : Value → EitherV) (v : Value),
       runParser (.obj ⟨none, none, some d⟩) v =
         match d v with
         | .right r => .ok r
         | .left l => .error ("Decode failed: " ++ jsonStringify l)) ∧
    (∀ (v : Value),
       runParser (.obj ⟨none, none, none⟩) v =
         .error "Invalid parser: must be a function or have .parse(), .validateSync(), or .decode() method") :=
  ⟨fun _ _ => rfl, fun _ _ _ _ => rfl, fun _ _ _ => rfl, fun _ _ => rfl, fun _ => rfl⟩

/-! ## C5: the combined record validator (`createObjectParser`) -/

/-- **C5.** The combined record validator applies each field's validator
only to keys present in the input, skips absent keys (in particular it
never fails because of a missing key), and returns a record containing
exactly the transformed present keys: every output binding comes from a
mapped validator run on a present input value, input keys without a
validator never pass through, no key is invented, and every key present
in both the map and the input appears transformed in the output. -/
theorem objParse_only_present_keys (m : List (String × Parser)) (r : List (String × Value)) :
    ((∀ k p raw, (k, p) ∈ m → lookupA r k = some raw → ∃ v, runParser p raw = .ok v) →
       ∃ out, objParse m r = .ok out) ∧
    (∀ out, objParse m r = .ok out →
       (∀ k v, lookupA out k = some v →
          ∃ p raw, lookupA m k = some p ∧ lookupA r k = some raw ∧ runParser p raw = .ok v) ∧
       (∀ k, lookupA r k = none → lookupA out k = none) ∧
       (∀ k, lookupA m k = none → lookupA out k = none) ∧
       (∀ k p raw, lookupA m k = some p → lookupA r k = some raw →
          ∃ v, lookupA out k = some v ∧ runParser p raw = .ok v)) := by
  induction m with
  | nil =>
    refine ⟨fun _ => ⟨[], rfl⟩, fun out hout => ?_⟩
    simp only [objParse] at hout
    cases hout
    exact ⟨fun k v h => by simp [lookupA] at h,
           fun k _ => by simp [lookupA],
           fun k _ => by simp [lookupA],
           fun k p raw hm _ => by simp [lookupA] at hm⟩
  | cons hd tl ih =>
    obtain ⟨k0, p0⟩ := hd
    constructor
    · intro hall
      cases hr0 : lookupA r k0 with
      | none =>
        obtain ⟨out, hout⟩ := ih.1 (fun k p raw hm hr => hall k p raw (List.mem_cons_of_mem _ hm) hr)
        exact ⟨out, by simp [objParse, hr0, hout]⟩
      | some raw0 =>
        obtain ⟨v0, hv0⟩ := hall k0 p0 raw0 (List.mem_cons_self _ _) hr0
        obtain ⟨out, hout⟩ := ih.1 (fun k p raw hm hr => hall k p raw (List.mem_cons_of_mem _ hm) hr)
        exact ⟨(k0, v0) :: out, by simp [objParse, hr0, hv0, hout]⟩
    · intro out hout
      cases hr0 : lookupA r k0 with
      | none =>
        simp only [objParse, hr0] at hout
        obtain ⟨ha, hb, hc, hd⟩ := ih.2 out hout
        refine ⟨?_, hb, ?_, ?_⟩
        · intro k v h
          obtain ⟨p, raw, hm, hr, hrun⟩ := ha k v h
          by_cases hk : k0 = k
          · subst hk
            exact absurd hr (by simp [hr0])
          · exact ⟨p, raw, by simp [lookupA, hk, hm], hr, hrun⟩
        · intro k hm
          simp only [lookupA] at hm
          by_cases hk : k0 = k
          · subst hk
            exact hb _ hr0
          · simp only [hk, if_false] at hm
            exact hc _ hm
        · intro k p raw hm hr
          by_cases hk : k0 = k
          · subst hk
            exact absurd hr (by simp [hr0])
          · simp only [lookupA, hk, if_false] at hm
            exact hd k p raw hm hr
      | some raw0 =>
        simp only [objParse, hr0] at hout
        cases hrun0 : runParser p0 raw0 with
        | error e => simp [hrun0] at hout
        | ok v0 =>
          simp only [hrun0] at hout
          cases htl : objParse tl r with
          | error e => simp [htl] at hout
          | ok out' =>
            simp only [htl] at hout
            cases hout
            obtain ⟨ha, hb, hc, hd⟩ := ih.2 out' htl
            refine ⟨?_, ?_, ?_, ?_⟩
            · intro k v h
              simp only [lookupA] at h
              by_cases hk : k0 = k
              · subst hk
                simp only [if_pos rfl] at h
                cases h
                exact ⟨p0, raw0, by simp [lookupA], hr0, hrun0⟩
              · simp only [hk, if_false] at h
                obtain ⟨p, raw, hm, hr, hrun⟩ := ha k v h
                exact ⟨p, raw, by simp [lookupA, hk, hm], hr, hrun⟩
            · intro k hr
              have hk : ¬ (k0 = k) := fun he => by
                subst he
                exact absurd hr (by simp [hr0])
              simp only [lookupA, hk, if_false]
              exact hb _ hr
            · intro k hm
              simp only [lookupA] at hm
              by_cases hk : k0 = k
              · simp [hk] at hm
              · simp only [hk, if_false] at hm
                simp only [lookupA, hk, if_false]
                exact hc _ hm
            · intro k p raw hm hr
              simp only [lookupA] at hm ⊢
              by_cases hk : k0 = k
              · subst hk
                simp only [if_pos rfl] at hm ⊢
                cases hm
                rw [hr0] at hr
                cases hr
                exact ⟨v0, rfl, hrun0⟩
              · simp only [hk, if_false] at hm ⊢
                exact hd k p raw hm hr

/-- Witness for C5: a concrete map and record; the key `"b"` is mapped
but absent from the input and is skipped, the key `"c"` is present but
unmapped and does not pass through. -/
theorem objParse_only_present_keys_witness :
    objParse [("a", .func (fun v => .ok v)), ("b", .func (fun v => .ok v))]
      [("a", .str "A"), ("c", .str "C")] = .ok [("a", .str "A")] ∧
    lookupA [("a", Value.str "A")] "b" = none ∧
    lookupA [("a", Value.str "A")] "c" = none := by
  have h := (objParse_only_present_keys
    [("a", .func (fun v => .ok v)), ("b", .func (fun v => .ok v))]
    [("a", .str "A"), ("c", .str "C")]).2 [("a", .str "A")] rfl
  exact ⟨rfl, h.2.1 "b" rfl, h.2.2.1 "c" rfl⟩

/-! ## C6: the URL serializer's trailing-slash policy -/

/-- Modelled from the spec (§4.6): `buildPath` as the specification
words it, appending the trailing slash only when the result does not
already end in one.  Used to compare against the source's `buildPath`. -/
def buildPathSpec (segments : List Segment) (query : Option QueryParams) (ts : Bool) : String :=
  let base := "/" ++ joinSlash (segments.map segValue)
  let path := if ts && !endsSlash base then base ++ "/" else base
  match query with
  | none => path
  | some q => if q.isEmpty then path else path ++ "?" ++ queryString q

/-- **C6 (divergence).** At the root route with `trailingSlash` on, the
source's `buildPath` appends the slash unconditionally and renders
`"//"`, while the claimed (and spec'd, and unit-tested) behaviour —
append only when the path does not already end in `/` — renders `"/"`.
The query-free and query-order parts of `buildPath` agree with the
claim; only the trailing-slash clause diverges. -/
theorem buildPath_trailing_slash_divergence :
    buildPath [] none true = "//" ∧
    buildPathSpec [] none true = "/" ∧
    buildPath [] none true ≠ buildPathSpec [] none true ∧
    (∀ (segments : List Segment) (q : QueryParams) (ts : Bool),
       buildPath segments (some q) ts =
         (if q.isEmpty then buildPath segments none ts
          else buildPath segments none ts ++ "?" ++
            String.intercalate "&"
              (q.map (fun kv => formEncode kv.1 ++ "=" ++ formEncode (jsString kv.2))))) :=
  ⟨rfl, rfl, by decide, fun segments q ts => by
    cases hq : q.isEmpty <;> simp [buildPath, queryString, hq]⟩

/-! ## C7: conflicting parametric declarations at one edge -/

/-- **C7 (counterexample).** Declaring `/a/:x` then `/a/:y` leaves the
shared sentinel edge's node carrying the FIRST-declared parameter name
`"x"`, not the last-declared `"y"` the claim asserts. -/
theorem param_edge_last_name_counterexample :
    ((lookupA (buildTree [.cfgD ⟨"/a/:x", [], none, none, none⟩,
                          .cfgD ⟨"/a/:y", [], none, none, none⟩]).children "a").bind
       (fun a => (lookupA a.children "$param").map TreeNode.paramName)) = some (some "x") ∧
    (some (some "x") : Option (Option String)) ≠ some (some "y") :=
  ⟨by decide, by decide⟩

/-- **C7 (amended).** Two definitions declaring parametric segments at
the same position under different names share the single `$param` edge;
after construction the edge's node carries the FIRST-declared parameter
name (node creation with `??=` keeps the existing node's name) and the
LAST-declared parameter validator (each walk overwrites
`paramParser` when its own definition supplies one). -/
theorem param_edge_first_name_last_validator
    (x y : String) (p1 p2 : Parser) (pathx pathy sx sy : String)
    (hx : splitSegs pathx = ["a", sx]) (hy : splitSegs pathy = ["a", sy])
    (hcx : startsColon sx = true) (hcy : startsColon sy = true)
    (htx : tailStr sx = x) (hty : tailStr sy = y) :
    ((lookupA (buildTree [.cfgD ⟨pathx, [(x, p1)], none, none, none⟩,
                          .cfgD ⟨pathy, [(y, p2)], none, none, none⟩]).children "a").bind
       (fun a => (lookupA a.children "$param").map
          (fun pn => (pn.paramName, pn.paramParser)))) = some (some x, some p2) := by
  have ha : startsColon "a" = false := by decide
  simp [buildTree, insertOne, toConfig, hx, hy, insertSegs, hcx, hcy, htx, hty, ha,
    freshNode, lookupA, setA, applyParamParser, markTerminal, TreeNode.children,
    TreeNode.paramName, TreeNode.paramParser]

/-- Witness for C7's amended theorem at the concrete declarations
`/a/:x` (validator `p1`) and `/a/:y` (validator `p2`). -/
theorem param_edge_first_name_last_validator_witness :
    ((lookupA (buildTree [.cfgD ⟨"/a/:x", [("x", .func (fun v => .ok v))], none, none, none⟩,
                          .cfgD ⟨"/a/:y", [("y", .func (fun _ => .ok (.str "v2")))], none, none, none⟩]).children "a").bind
       (fun a => (lookupA a.children "$param").map
          (fun pn => (pn.paramName, pn.paramParser)))) =
      some (some "x", some (.func (fun _ => .ok (.str "v2")))) :=
  param_edge_first_name_last_validator "x" "y" _ _ "/a/:x" "/a/:y" ":x" ":y"
    (by decide) (by decide) (by decide) (by decide) (by decide) (by decide)

/-! ## C10: static descent through the parametric fallback -/

/-- **C10.** When the current node has no static child named `prop` but
its parametric child does, descending by `prop` silently skips the
parametric segment: the returned navigation object is bound to the
grandchild with only the static segment appended, so the rendered path
and pattern omit the parametric segment entirely.  The same fallback
exists on the root proxy. -/
theorem navget_param_fallback (prop : String) :
    (∀ (nav : NavState) (pn c : TreeNode),
       prop ∉ reservedProps →
       lookupA nav.tree.children prop = none →
       lookupA nav.tree.children "$param" = some pn →
       lookupA pn.children prop = some c →
       navGet nav prop = some ⟨nav.segments ++ [.static prop], none, c, c.meta⟩ ∧
       (c.isTerminal = true →
          navToString ⟨nav.segments ++ [.static prop], none, c, c.meta⟩ false =
            .ok (buildPath (nav.segments ++ [.static prop]) none false) ∧
          navToPattern ⟨nav.segments ++ [.static prop], none, c, c.meta⟩ false =
            .ok (buildPattern (nav.segments ++ [.static prop]) false))) ∧
    (∀ (t : TreeNode) (pn c : TreeNode),
       prop ∉ rootReserved →
       lookupA t.children prop = none →
       lookupA t.children "$param" = some pn →
       lookupA pn.children prop = some c →
       rootGet t prop = some ⟨[.static prop], none, c, c.meta⟩) := by
  constructor
  · intro nav pn c hres hstatic hpn hc
    refine ⟨?_, fun hterm => ?_⟩
    · simp [navGet, hres, hstatic, hpn, hc]
    · constructor <;> simp [navToString, navToPattern, hterm, buildPath]
  · intro t pn c hres hstatic hpn hc
    simp [rootGet, hres, hstatic, hpn, hc]

/-- Witness for C10: with only `/users/:id/posts` declared, descending
`users` then `posts` lands on the (terminal) `posts` grandchild and
renders `/users/posts` — the parametric `:id` segment is skipped. -/
theorem navget_param_fallback_witness :
    ∃ nav' : NavState,
      navGet ⟨[Segment.static "users"], none,
        ((lookupA (buildTree [.strD "/users/:id/posts"]).children "users").getD (freshNode none)),
        ((lookupA (buildTree [.strD "/users/:id/posts"]).children "users").getD (freshNode none)).meta⟩
        "posts" = some nav' ∧
      navToString nav' false = .ok "/users/posts" ∧
      navToPattern nav' false = .ok "/users/posts" := by
  have h := (navget_param_fallback "posts").1
    ⟨[Segment.static "users"], none,
      ((lookupA (buildTree [.strD "/users/:id/posts"]).children "users").getD (freshNode none)),
      ((lookupA (buildTree [.strD "/users/:id/posts"]).children "users").getD (freshNode none)).meta⟩
    _ _ (by decide) rfl rfl rfl
  exact ⟨_, h.1, rfl, rfl⟩

/-! ## C1: rendering requires a terminal node -/

/-- **C1.** For every navigation object reached by descending from a
route table's root, `toString()` and `toPattern()` fail with the
"not a defined route" error naming the attempted pattern exactly when
the current trie node is not terminal, and succeed with a string when it
is. -/
theorem render_requires_terminal (t : TreeNode) (ts : Bool) (nav : NavState)
    (_h : NavReach t nav) :
    (nav.tree.isTerminal = false →
       navToString nav ts = .error ("\"" ++ buildPattern nav.segments false ++
         "\" is not a defined route. Did you forget to add it to createRoutes()?") ∧
       navToPattern nav ts = .error ("\"" ++ buildPattern nav.segments false ++
         "\" is not a defined route. Did you forget to add it to createRoutes()?")) ∧
    (nav.tree.isTerminal = true →
       (∃ s, navToString nav ts = .ok s) ∧ (∃ s, navToPattern nav ts = .ok s)) := by
  constructor
  · intro hterm
    constructor <;> simp [navToString, navToPattern, hterm]
  · intro hterm
    exact ⟨⟨buildPath nav.segments nav.query ts, by simp [navToString, hterm]⟩,
           ⟨buildPattern nav.segments ts, by simp [navToPattern, hterm]⟩⟩

/-- Witness for C1: with `/users/:id/posts` declared, the navigation
object at `/users` (reached by one static descent) is non-terminal and
renders the error naming `"/users"`, while the object at
`/users/:id/posts` (reached by descending `users`, calling `'7'`, then
descending `posts`) is terminal and renders successfully. -/
theorem render_requires_terminal_witness :
    (∃ navU, rootGet (buildTree [.strD "/users/:id/posts"]) "users" = some navU ∧
       navToString navU false = .error
         "\"/users\" is not a defined route. Did you forget to add it to createRoutes()?") ∧
    (∃ navP, ((rootGet (buildTree [.strD "/users/:id/posts"]) "users").bind
        (fun navU => (navCall navU (.str "7") none).toOption)).bind
        (fun navI => navGet navI "posts") = some navP ∧
       navToString navP false = .ok "/users/7/posts") := by
  have h1 := render_requires_terminal (buildTree [.strD "/users/:id/posts"]) false
    ⟨[.static "users"],
     none,
     (lookupA (buildTree [.strD "/users/:id/posts"]).children "users").getD (freshNode none),
     ((lookupA (buildTree [.strD "/users/:id/posts"]).children "users").getD (freshNode none)).meta⟩
    (NavReach.rootStatic "users" _ rfl)
  exact ⟨⟨_, rfl, (h1.1 rfl).1⟩, ⟨_, rfl, rfl⟩⟩

/-! ## C3: the root container and the `$index` accessor -/

theorem insertSegs_isTerminal_cons (cfg : RouteConfig) (t : TreeNode) (s : String)
    (rest : List String) :
    (insertSegs cfg t (s :: rest)).isTerminal = t.isTerminal := by
  cases t
  rfl

theorem insertOne_isTerminal (t : TreeNode) (d : RouteDefinition) :
    (insertOne t d).isTerminal =
      (t.isTerminal || (splitSegs (toConfig d).path).isEmpty) := by
  unfold insertOne
  cases h : splitSegs (toConfig d).path with
  | nil =>
    cases t
    simp [insertSegs, markTerminal, TreeNode.isTerminal]
  | cons s rest =>
    simp [insertSegs_isTerminal_cons]

theorem foldl_insertOne_isTerminal (defs : List RouteDefinition) (t : TreeNode) :
    (defs.foldl insertOne t).isTerminal =
      (t.isTerminal || defs.any (fun d => (splitSegs (toConfig d).path).isEmpty)) := by
  induction defs generalizing t with
  | nil => simp
  | cons d rest ih =>
    simp [List.foldl_cons, ih, insertOne_isTerminal, Bool.or_assoc]

/-- The root node is terminal iff some definition has zero segments. -/
theorem buildTree_root_isTerminal (defs : List RouteDefinition) :
    (buildTree defs).isTerminal =
      defs.any (fun d => (splitSegs (toConfig d).path).isEmpty) := by
  rw [buildTree, foldl_insertOne_isTerminal]
  simp [freshNode, TreeNode.isTerminal]

/-- **C3.** Rendering the un-descended root object always fails with the
distinct "use the root accessor" error, whatever was declared; the
dedicated `$index` accessor exposes the root node's own render, metadata
and query-call operations, and its render succeeds exactly when a
zero-segment definition (root `/`) was supplied. -/
theorem root_container_vs_index (defs : List RouteDefinition) (ts : Bool) :
    rootToString = .error
      "Cannot call toString() on routes directly. Use routes.$index for the root route." ∧
    rootToPattern = .error
      "Cannot call toPattern() on routes directly. Use routes.$index for the root route." ∧
    ((∃ s, indexToString (buildTree defs) ts = .ok s) ↔
       ∃ d ∈ defs, splitSegs (toConfig d).path = []) ∧
    ((∃ s, indexToPattern (buildTree defs) ts = .ok s) ↔
       ∃ d ∈ defs, splitSegs (toConfig d).path = []) ∧
    indexGetMeta (buildTree defs) = (buildTree defs).meta ∧
    createIndexNode (buildTree defs) ts none =
      .ok (createRouteNode [] none (buildTree defs).meta ts) := by
  have hterm : (buildTree defs).isTerminal = true ↔
      ∃ d ∈ defs, splitSegs (toConfig d).path = [] := by
    rw [buildTree_root_isTerminal]
    simp [List.any_eq_true, List.isEmpty_iff]
  refine ⟨rfl, rfl, ?_, ?_, rfl, ?_⟩
  · rw [← hterm]
    cases h : (buildTree defs).isTerminal <;> simp [indexToString, h]
  · rw [← hterm]
    cases h : (buildTree defs).isTerminal <;> simp [indexToPattern, h]
  · cases h : (buildTree defs).queryParser <;> simp [createIndexNode, h]

/-! ## C8: declaration-to-render round trip for static routes -/

/-- The bare trie walk along static child keys. -/
def walk : TreeNode → List String → Option TreeNode
  | t, [] => some t
  | t, s :: rest =>
    match lookupA t.children s with
    | some c => walk c rest
    | none => none

/-- Iterated static descent on navigation objects. -/
def goStatics : NavState → List String → Option NavState
  | nav, [] => some nav
  | nav, s :: rest => (navGet nav s).bind (fun nav' => goStatics nav' rest)

/-- Navigate a route table from its root proxy by a sequence of static
property accesses. -/
def navigateStatics (t : TreeNode) : List String → Option NavState
  | [] => none
  | s :: rest => (rootGet t s).bind (fun nav => goStatics nav rest)

theorem markTerminal_isTerminal (cfg : RouteConfig) (t : TreeNode) :
    (markTerminal cfg t).isTerminal = true := by
  cases t
  rfl

theorem markTerminal_children (cfg : RouteConfig) (t : TreeNode) :
    (markTerminal cfg t).children = t.children := by
  cases t
  rfl

theorem applyParamParser_children (o : Option Parser) (t : TreeNode) :
    (applyParamParser o t).children = t.children := by
  cases o <;> cases t <;> rfl

theorem applyParamParser_isTerminal (o : Option Parser) (t : TreeNode) :
    (applyParamParser o t).isTerminal = t.isTerminal := by
  cases o <;> cases t <;> rfl

theorem insertSegs_nil (cfg : RouteConfig) (t : TreeNode) :
    insertSegs cfg t [] = markTerminal cfg t := by
  cases t
  rfl

/-- Unfolding `insertSegs` on a static (non-`:`) segment. -/
theorem insertSegs_cons_static (cfg : RouteConfig) (ch : List (String × TreeNode))
    (pn : Option String) (pp qp : Option Parser) (m : Option Meta) (term : Bool)
    (s : String) (rest : List String) (hs : startsColon s = false) :
    insertSegs cfg (.mk ch pn pp qp m term) (s :: rest) =
      .mk (setA ch s (insertSegs cfg ((lookupA ch s).getD (freshNode none)) rest))
        pn pp qp m term := by
  simp only [insertSegs, hs, Bool.false_eq_true, if_false]

/-- Unfolding `insertSegs` on a parametric (`:`-prefixed) segment. -/
theorem insertSegs_cons_param (cfg : RouteConfig) (ch : List (String × TreeNode))
    (pn : Option String) (pp qp : Option Parser) (m : Option Meta) (term : Bool)
    (s : String) (rest : List String) (hs : startsColon s = true) :
    insertSegs cfg (.mk ch pn pp qp m term) (s :: rest) =
      .mk (setA ch "$param"
            (insertSegs cfg
              (applyParamParser (lookupA cfg.params (tailStr s))
                ((lookupA ch "$param").getD (freshNode (some (tailStr s)))))
              rest))
        pn pp qp m term := by
  simp only [insertSegs, hs, if_true]

/-- `applyParamParser` only touches `paramParser`, so a walk below the
node is unchanged and the node itself keeps its terminal flag. -/
theorem walk_applyParamParser (srest : List String) (c : TreeNode) (o : Option Parser)
    (n : TreeNode) (hw : walk c srest = some n) (ht : n.isTerminal = true) :
    ∃ n', walk (applyParamParser o c) srest = some n' ∧ n'.isTerminal = true := by
  cases srest with
  | nil =>
    simp only [walk, Option.some.injEq] at hw
    subst hw
    exact ⟨applyParamParser o c, rfl, by rw [applyParamParser_isTerminal]; exact ht⟩
  | cons s rest =>
    refine ⟨n, ?_, ht⟩
    simp only [walk, applyParamParser_children]
    simp only [walk] at hw
    exact hw

/-- Establishment: after inserting a definition's static segments below
a node, walking those same segments reaches a terminal node. -/
theorem walk_insertSegs_self :
    ∀ (segs : List String) (cfg : RouteConfig) (t : TreeNode),
      (∀ s ∈ segs, startsColon s = false) →
      ∃ n, walk (insertSegs cfg t segs) segs = some n ∧ n.isTerminal = true
  | [], cfg, t, _ =>
    ⟨markTerminal cfg t, by rw [insertSegs_nil]; rfl, markTerminal_isTerminal cfg t⟩
  | s :: rest, cfg, t, hstat => by
    have hs : startsColon s = false := hstat s (List.mem_cons_self _ _)
    have hrest : ∀ s' ∈ rest, startsColon s' = false :=
      fun s' hs' => hstat s' (List.mem_cons_of_mem _ hs')
    obtain ⟨ch, pn, pp, qp, m, term⟩ := t
    obtain ⟨n, hn, hterm⟩ :=
      walk_insertSegs_self rest cfg ((lookupA ch s).getD (freshNode none)) hrest
    refine ⟨n, ?_, hterm⟩
    rw [insertSegs_cons_static cfg ch pn pp qp m term s rest hs]
    simp only [walk, TreeNode.children, lookupA_setA_self]
    exact hn

/-- Preservation: inserting any further definition keeps every existing
terminal static walk intact (the reached node may change, but stays
terminal). -/
theorem walk_insertSegs_preserved :
    ∀ (segs : List String) (t : TreeNode) (cfg : RouteConfig) (csegs : List String)
      (n : TreeNode), walk t segs = some n → n.isTerminal = true →
      ∃ n', walk (insertSegs cfg t csegs) segs = some n' ∧ n'.isTerminal = true
  | [], t, cfg, csegs, n, hw, ht => by
    simp only [walk, Option.some.injEq] at hw
    subst hw
    cases csegs with
    | nil =>
      exact ⟨markTerminal cfg t, by rw [insertSegs_nil]; rfl, markTerminal_isTerminal cfg t⟩
    | cons c0 crest =>
      obtain ⟨ch, pn, pp, qp, m, term⟩ := t
      cases hpc : startsColon c0 with
      | false =>
        rw [insertSegs_cons_static cfg ch pn pp qp m term c0 crest hpc]
        exact ⟨_, rfl, ht⟩
      | true =>
        rw [insertSegs_cons_param cfg ch pn pp qp m term c0 crest hpc]
        exact ⟨_, rfl, ht⟩
  | s :: srest, t, cfg, csegs, n, hw, ht => by
    simp only [walk] at hw
    cases hc : lookupA t.children s with
    | none => rw [hc] at hw; exact absurd hw (by simp)
    | some c =>
      rw [hc] at hw
      cases csegs with
      | nil =>
        refine ⟨n, ?_, ht⟩
        rw [insertSegs_nil]
        simp only [walk, markTerminal_children, hc]
        exact hw
      | cons c0 crest =>
        obtain ⟨ch, pn, pp, qp, m, term⟩ := t
        simp only [TreeNode.children] at hc
        cases hpc : startsColon c0 with
        | false =>
          rw [insertSegs_cons_static cfg ch pn pp qp m term c0 crest hpc]
          by_cases hkey : c0 = s
          · subst hkey
            obtain ⟨n1, hn1, htn1⟩ := walk_insertSegs_preserved srest c cfg crest n hw ht
            refine ⟨n1, ?_, htn1⟩
            simp only [walk, TreeNode.children, lookupA_setA_self, hc, Option.getD_some]
            exact hn1
          · refine ⟨n, ?_, ht⟩
            simp only [walk, TreeNode.children, lookupA_setA_ne _ _ _ _ hkey, hc]
            exact hw
        | true =>
          rw [insertSegs_cons_param cfg ch pn pp qp m term c0 crest hpc]
          by_cases hkey : ("$param" : String) = s
          · subst hkey
            obtain ⟨n0, hn0, htn0⟩ := walk_applyParamParser srest c
              (lookupA cfg.params (tailStr c0)) n hw ht
            obtain ⟨n1, hn1, htn1⟩ := walk_insertSegs_preserved srest _ cfg crest n0 hn0 htn0
            refine ⟨n1, ?_, htn1⟩
            simp only [walk, TreeNode.children, lookupA_setA_self, hc, Option.getD_some]
            exact hn1
          · refine ⟨n, ?_, ht⟩
            simp only [walk, TreeNode.children, lookupA_setA_ne _ _ _ _ hkey, hc]
            exact hw

/-- A successful strict static walk turns into a chain of proxy
descents collecting exactly the walked static segments (and clearing
the query). -/
theorem goStatics_of_walk :
    ∀ (segs : List String) (nav : NavState) (n : TreeNode),
      (∀ s ∈ segs, s ∉ reservedProps) →
      walk nav.tree segs = some n →
      ∃ nav', goStatics nav segs = some nav' ∧ nav'.tree = n ∧
        nav'.segments = nav.segments ++ segs.map Segment.static ∧
        (nav.query = none → nav'.query = none)
  | [], nav, n, _, hw => by
    simp only [walk, Option.some.injEq] at hw
    exact ⟨nav, rfl, hw, by simp, fun h => h⟩
  | s :: rest, nav, n, hres, hw => by
    simp only [walk] at hw
    cases hc : lookupA nav.tree.children s with
    | none => rw [hc] at hw; exact absurd hw (by simp)
    | some c =>
      rw [hc] at hw
      have hs : s ∉ reservedProps := hres s (List.mem_cons_self _ _)
      have hnav : navGet nav s = some ⟨nav.segments ++ [.static s], none, c, c.meta⟩ := by
        simp [navGet, hs, hc]
      obtain ⟨nav', hgo, htr, hsegs, hq⟩ :=
        goStatics_of_walk rest ⟨nav.segments ++ [.static s], none, c, c.meta⟩ n
          (fun s' h => hres s' (List.mem_cons_of_mem _ h)) hw
      refine ⟨nav', ?_, htr, ?_, fun _ => hq rfl⟩
      · simp [goStatics, hnav, hgo]
      · rw [hsegs]
        simp

/-- Descending from the root proxy by an existing non-reserved static
child. -/
theorem rootGet_static (t : TreeNode) (s : String) (c : TreeNode)
    (hres : s ∉ rootReserved) (hc : lookupA t.children s = some c) :
    rootGet t s = some ⟨[.static s], none, c, c.meta⟩ := by
  simp [rootGet, hres, hc]

/-- Preservation extended over a list of later definitions. -/
theorem walk_foldl_preserved :
    ∀ (l : List RouteDefinition) (t : TreeNode) (segs : List String) (n : TreeNode),
      walk t segs = some n → n.isTerminal = true →
      ∃ n', walk (l.foldl insertOne t) segs = some n' ∧ n'.isTerminal = true
  | [], _, _, n, hw, ht => ⟨n, hw, ht⟩
  | d :: rest, t, segs, n, hw, ht => by
    obtain ⟨n1, h1, ht1⟩ :=
      walk_insertSegs_preserved segs t (toConfig d) (splitSegs (toConfig d).path) n hw ht
    exact walk_foldl_preserved rest (insertOne t d) segs n1 h1 ht1

theorem map_segValue_static (l : List String) :
    (l.map Segment.static).map segValue = l := by
  induction l with
  | nil => rfl
  | cons s rest ih => simp [segValue, ih]

/-- **C8 (amended).** For every declared route whose path is in
canonical static form — at least one segment, no parametric segments,
no segments named like the proxies' reserved properties, and the path
string literally `/`-joins its own split segments (so no empty segments
and no trailing slash) — navigating the trie segment by segment from
the root and rendering with the default `trailingSlash = false` yields
exactly the declared path string. -/
theorem static_route_roundtrip (defs : List RouteDefinition) (d : RouteDefinition)
    (hmem : d ∈ defs)
    (hne : splitSegs (toConfig d).path ≠ [])
    (hstat : ∀ s ∈ splitSegs (toConfig d).path, startsColon s = false)
    (hres : ∀ s ∈ splitSegs (toConfig d).path, s ∉ rootReserved)
    (hpath : (toConfig d).path = "/" ++ joinSlash (splitSegs (toConfig d).path)) :
    ∃ nav, navigateStatics (buildTree defs) (splitSegs (toConfig d).path) = some nav ∧
      navToString nav false = .ok (toConfig d).path := by
  obtain ⟨l1, l2, rfl⟩ := List.append_of_mem hmem
  have hbuild : buildTree (l1 ++ d :: l2) =
      l2.foldl insertOne (insertOne (l1.foldl insertOne (freshNode none)) d) := by
    simp [buildTree, List.foldl_append]
  obtain ⟨n, hn, htn⟩ := walk_insertSegs_self (splitSegs (toConfig d).path) (toConfig d)
    (l1.foldl insertOne (freshNode none)) hstat
  obtain ⟨n', hn', htn'⟩ := walk_foldl_preserved l2
    (insertOne (l1.foldl insertOne (freshNode none)) d) (splitSegs (toConfig d).path) n hn htn
  rw [← hbuild] at hn'
  cases hsegs0 : splitSegs (toConfig d).path with
  | nil => exact absurd hsegs0 hne
  | cons s0 srest =>
    rw [hsegs0] at hn'
    simp only [walk] at hn'
    cases hc : lookupA (buildTree (l1 ++ d :: l2)).children s0 with
    | none => rw [hc] at hn'; exact absurd hn' (by simp)
    | some c0 =>
      rw [hc] at hn'
      have hs0res : s0 ∉ rootReserved := hres s0 (by rw [hsegs0]; exact List.mem_cons_self _ _)
      have hroot := rootGet_static _ s0 c0 hs0res hc
      obtain ⟨nav, hgo, htr, hsegsnav, hqnav⟩ :=
        goStatics_of_walk srest ⟨[.static s0], none, c0, c0.meta⟩ n'
          (fun s hsm hin =>
            hres s (by rw [hsegs0]; exact List.mem_cons_of_mem _ hsm)
              (List.mem_cons_of_mem _ hin))
          hn'
      refine ⟨nav, ?_, ?_⟩
      · simp [navigateStatics, hroot, hgo]
      · have hterm : nav.tree.isTerminal = true := by rw [htr]; exact htn'
        have hq : nav.query = none := hqnav rfl
        rw [navToString, hterm]
        simp only [if_true]
        rw [hq, hsegsnav]
        have : buildPath ([Segment.static s0] ++ srest.map Segment.static) none false =
            "/" ++ joinSlash ((s0 :: srest).map id) := by
          simp only [buildPath, if_false]
          rw [show ([Segment.static s0] ++ srest.map Segment.static) =
                (s0 :: srest).map Segment.static by simp]
          rw [map_segValue_static]
          simp
        rw [this]
        simp only [List.map_id]
        rw [← hsegs0, ← hpath]

/-- **C8 (counterexample).** The claim fails as stated: declaring the
path `"/a/"` (with a trailing slash), navigation by its split segments
renders `"/a"`, not the declared string `"/a/"` — normalization discards
the empty segment, so declaration-to-render is not the identity on
non-canonical paths. -/
theorem static_route_roundtrip_counterexample :
    splitSegs "/a/" = ["a"] ∧
    ((navigateStatics (buildTree [.strD "/a/"]) ["a"]).map
       (fun nav => navToString nav false)) = some (.ok "/a") ∧
    ("/a" : String) ≠ "/a/" :=
  ⟨rfl, rfl, by decide⟩

/-- Witness for C8's amended theorem: the canonical static declaration
`/users/settings` navigates and renders back to itself. -/
theorem static_route_roundtrip_witness :
    ∃ nav, navigateStatics (buildTree [.strD "/users/settings"])
        (splitSegs "/users/settings") = some nav ∧
      navToString nav false = .ok "/users/settings" :=
  static_route_roundtrip [.strD "/users/settings"] (.strD "/users/settings")
    (List.mem_cons_self _ _) (by decide) (by decide) (by decide) (by decide)

/-! ## Pattern segments and the substitution chain (C2, C9) -/

/-- A pattern segment as declared: static text or a named parameter. -/
inductive PSeg : Type where
  | staticP (s : String)
  | paramP (n : String)

/-- The literal text a pattern segment contributes to the declared
path. -/
def rawSeg : PSeg → String
  | .staticP s => s
  | .paramP n => ":" ++ n

/-- The parameter names of a pattern, in occurrence order. -/
def paramNamesOf (segs : List PSeg) : List String :=
  segs.filterMap (fun sg => match sg with | .paramP n => some n | _ => none)

/-- The characters of `'/' + seg₀ + '/' + seg₁ + ...` for a per-segment
rendering function. -/
def segsChars (g : PSeg → String) : List PSeg → List Char
  | [] => []
  | sg :: rest => '/' :: (g sg).data ++ segsChars g rest

/-- The characters of the path after substituting `f n` for each
parameter. -/
def resCharsF (f : String → List Char) : List PSeg → List Char
  | [] => []
  | .staticP s :: rest => '/' :: s.data ++ resCharsF f rest
  | .paramP n :: rest => '/' :: f n ++ resCharsF f rest

/-- A character list free of colons. -/
def noColonL (l : List Char) : Bool := l.all (fun c => !(c == ':'))

/-- A string free of colons (so it can neither start a parameter
placeholder nor be captured by one). -/
def noColon (s : String) : Bool := noColonL s.data

/-- A character list free of dollars. -/
def noDollarL (l : List Char) : Bool := l.all (fun c => !(c == '$'))

/-- A string free of dollars (so `String.prototype.replace` splices it
literally, with no `GetSubstitution` expansion). -/
def noDollar (s : String) : Bool := noDollarL s.data

theorem segsChars_append (g : PSeg → String) (l1 l2 : List PSeg) :
    segsChars g (l1 ++ l2) = segsChars g l1 ++ segsChars g l2 := by
  induction l1 with
  | nil => rfl
  | cons sg rest ih => simp [segsChars, ih]

theorem resCharsF_eq_segsChars (f : String → List Char) (g : PSeg → String)
    (segs : List PSeg)
    (hstat : ∀ s, PSeg.staticP s ∈ segs → g (.staticP s) = s)
    (hpar : ∀ n, PSeg.paramP n ∈ segs → f n = (g (.paramP n)).data) :
    resCharsF f segs = segsChars g segs := by
  induction segs with
  | nil => rfl
  | cons sg rest ih =>
    have ih' := ih (fun s h => hstat s (List.mem_cons_of_mem _ h))
      (fun n h => hpar n (List.mem_cons_of_mem _ h))
    cases sg with
    | staticP s =>
      simp [resCharsF, segsChars, ih', hstat s (List.mem_cons_self _ _)]
    | paramP n =>
      simp [resCharsF, segsChars, ih', hpar n (List.mem_cons_self _ _)]

/-- `(s ++ t).data = s.data ++ t.data` (definitional). -/
theorem strData_append (s t : String) : (s ++ t).data = s.data ++ t.data := rfl

/-- The declared path `'/' + segs.join('/')` of a nonempty segment list,
at the character level. -/
theorem joinSlash_data (g : PSeg → String) :
    ∀ (sg : PSeg) (rest : List PSeg),
      ("/" ++ joinSlash ((sg :: rest).map g)).data = segsChars g (sg :: rest)
  | sg, [] => by
    simp [joinSlash, segsChars, strData_append]
  | sg, r :: t => by
    have ih := joinSlash_data g r t
    have hslash : ("/" : String).data = ['/'] := rfl
    simp only [List.map_cons, joinSlash, segsChars, strData_append, hslash,
      List.singleton_append, List.cons_append, List.nil_append, List.append_assoc] at ih ⊢
    rw [ih]

theorem isPrefixOf_append_self (l1 l2 : List Char) : l1.isPrefixOf (l1 ++ l2) = true := by
  induction l1 with
  | nil => simp [List.isPrefixOf]
  | cons a as ih => simp [List.isPrefixOf, ih]

/-- The first occurrence of a colon-led pattern in `pre ++ pat ++ post`
with a colon-free `pre` is exactly at the junction, so `findSplit`
splits precisely there. -/
theorem findSplit_at (p' post : List Char) :
    ∀ (pre : List Char), noColonL pre = true →
      findSplit (':' :: p') (pre ++ (':' :: p') ++ post) = some (pre, post)
  | [], _ => by
    simp only [List.nil_append, findSplit, isPrefixOf_append_self, if_true]
    simp [List.drop_left]
  | c :: pre', hpre => by
    simp only [noColonL, List.all_cons, Bool.and_eq_true] at hpre
    have hne : ¬ (c = ':') := by simpa using hpre.1
    have hc : (':' == c) = false := beq_eq_false_iff_ne.mpr (fun h => hne h.symm)
    have ih := findSplit_at p' post pre' hpre.2
    simp only [List.cons_append, findSplit, List.isPrefixOf, hc, Bool.false_and,
      Bool.false_eq_true, if_false, List.append_eq]
    rw [ih]

/-- A dollar-free replacement expands to itself under
`GetSubstitution`. -/
theorem expandDollar_of_noDollar (matched pre post : List Char) :
    ∀ (repl : List Char), noDollarL repl = true →
      expandDollar matched pre post repl = repl
  | [], _ => rfl
  | [c], _ => rfl
  | c :: d :: rest, h => by
    simp only [noDollarL, List.all_cons, Bool.and_eq_true] at h
    have hc : ¬ (c = '$') := by simpa using h.1
    have ih := expandDollar_of_noDollar matched pre post (d :: rest)
      (by simp only [noDollarL, List.all_cons, Bool.and_eq_true]; exact h.2)
    simp only [expandDollar, if_neg hc]
    rw [ih]

/-- Replacing a colon-led pattern after a colon-free prefix with a
dollar-free replacement splices the replacement literally at the
junction. -/
theorem charReplaceFirst_at (p' post repl pre : List Char)
    (hpre : noColonL pre = true) (hrepl : noDollarL repl = true) :
    charReplaceFirst (pre ++ (':' :: p') ++ post) (':' :: p') repl =
      pre ++ repl ++ post := by
  unfold charReplaceFirst
  rw [findSplit_at p' post pre hpre]
  show pre ++ expandDollar (':' :: p') pre post repl ++ post = pre ++ repl ++ post
  rw [expandDollar_of_noDollar (':' :: p') pre post repl hrepl]

theorem colon_append_data (n : String) : (":" ++ n).data = ':' :: n.data := rfl

theorem noColonL_append (a b : List Char) :
    noColonL (a ++ b) = (noColonL a && noColonL b) := by
  simp [noColonL, List.all_append]

/-- The substitution chain of `getRouteByName`: replacing each ordered
parameter's placeholder in turn, over a canonical pattern whose
already-processed prefix is colon-free and with dollar-free substituted
values, substitutes exactly segment by segment. -/
theorem replace_chain (f : String → List Char) :
    ∀ (todo : List PSeg) (done : List Char),
      noColonL done = true →
      (∀ s, PSeg.staticP s ∈ todo → noColon s = true) →
      (∀ n, PSeg.paramP n ∈ todo → noColonL (f n) = true) →
      (∀ n, PSeg.paramP n ∈ todo → noDollarL (f n) = true) →
      (paramNamesOf todo).foldl
        (fun acc n => charReplaceFirst acc (':' :: n.data) (f n))
        (done ++ segsChars rawSeg todo)
        = done ++ resCharsF f todo
  | [], done, _, _, _, _ => by simp [paramNamesOf, segsChars, resCharsF]
  | .staticP s :: rest, done, hdone, hstat, hvals, hdols => by
    have hs := hstat s (List.mem_cons_self _ _)
    have hdone' : noColonL (done ++ ('/' :: s.data)) = true := by
      rw [show ('/' :: s.data) = ['/'] ++ s.data from rfl]
      simp only [noColonL_append, Bool.and_eq_true]
      exact ⟨hdone, by decide, hs⟩
    have ih := replace_chain f rest (done ++ ('/' :: s.data)) hdone'
      (fun s' h => hstat s' (List.mem_cons_of_mem _ h))
      (fun n' h => hvals n' (List.mem_cons_of_mem _ h))
      (fun n' h => hdols n' (List.mem_cons_of_mem _ h))
    have hnames : paramNamesOf (.staticP s :: rest) = paramNamesOf rest := by
      simp [paramNamesOf]
    rw [hnames]
    have hacc : done ++ segsChars rawSeg (.staticP s :: rest) =
        (done ++ ('/' :: s.data)) ++ segsChars rawSeg rest := by
      simp [segsChars, rawSeg, List.append_assoc]
    rw [hacc, ih]
    simp [resCharsF, List.append_assoc]
  | .paramP n :: rest, done, hdone, hstat, hvals, hdols => by
    have hv := hvals n (List.mem_cons_self _ _)
    have hdol := hdols n (List.mem_cons_self _ _)
    have hnames : paramNamesOf (.paramP n :: rest) = n :: paramNamesOf rest := by
      simp [paramNamesOf]
    rw [hnames, List.foldl_cons]
    have hacc : done ++ segsChars rawSeg (.paramP n :: rest) =
        (done ++ ['/']) ++ (':' :: n.data) ++ segsChars rawSeg rest := by
      simp [segsChars, rawSeg, colon_append_data, List.append_assoc]
    rw [hacc]
    have hpre : noColonL (done ++ ['/']) = true := by
      simp only [noColonL_append, Bool.and_eq_true]
      exact ⟨hdone, by decide⟩
    rw [charReplaceFirst_at n.data (segsChars rawSeg rest) (f n) (done ++ ['/'])
      hpre hdol]
    have hdone' : noColonL (done ++ ('/' :: f n)) = true := by
      rw [show ('/' :: f n) = ['/'] ++ f n from rfl]
      simp only [noColonL_append, Bool.and_eq_true]
      exact ⟨hdone, by decide, hv⟩
    have ih := replace_chain f rest (done ++ ('/' :: f n)) hdone'
      (fun s' h => hstat s' (List.mem_cons_of_mem _ h))
      (fun n' h => hvals n' (List.mem_cons_of_mem _ h))
      (fun n' h => hdols n' (List.mem_cons_of_mem _ h))
    have hstep : (done ++ ['/']) ++ f n ++ segsChars rawSeg rest =
        (done ++ ('/' :: f n)) ++ segsChars rawSeg rest := by
      simp [List.append_assoc]
    rw [hstep, ih]
    simp [resCharsF, List.append_assoc]

/-! ## Lemmas about parameter collection and small definitional facts -/

theorem startsColon_colon_append (n : String) : startsColon (":" ++ n) = true := by
  simp [startsColon, colon_append_data]

theorem tailStr_colon_append (n : String) : tailStr (":" ++ n) = n := rfl

theorem startsColon_eq_false_of_noColon (s : String) (h : noColon s = true) :
    startsColon s = false := by
  unfold noColon noColonL at h
  unfold startsColon
  cases hd : s.data with
  | nil => rfl
  | cons c rest =>
    rw [hd] at h
    simp only [List.all_cons, Bool.and_eq_true] at h
    show (c == ':') = false
    simpa using h.1

theorem setA_mem {α : Type} (l : List (String × α)) (k' : String) (v' : α)
    (k : String) (v : α) (h : (k, v) ∈ setA l k' v') :
    (k, v) ∈ l ∨ (k = k' ∧ v = v') := by
  induction l with
  | nil =>
    simp only [setA, List.mem_singleton, Prod.mk.injEq] at h
    exact Or.inr h
  | cons hd tl ih =>
    obtain ⟨k0, w0⟩ := hd
    by_cases h0 : k0 = k'
    · simp only [setA, h0, if_true, List.mem_cons, Prod.mk.injEq] at h
      rcases h with h | h
      · exact Or.inr h
      · exact Or.inl (List.mem_cons_of_mem _ h)
    · simp only [setA, h0, if_false, List.mem_cons] at h
      rcases h with h | h
      · exact Or.inl (by simp [h])
      · rcases ih h with h' | h'
        · exact Or.inl (List.mem_cons_of_mem _ h')
        · exact Or.inr h'

theorem lookupA_isEmpty_false {α : Type} (l : List (String × α)) (k : String) (v : α)
    (h : lookupA l k = some v) : l.isEmpty = false := by
  cases l with
  | nil => simp [lookupA] at h
  | cons hd tl => rfl

theorem paramNamesOf_cons_static (s : String) (rest : List PSeg) :
    paramNamesOf (.staticP s :: rest) = paramNamesOf rest := by
  simp [paramNamesOf]

theorem paramNamesOf_cons_param (n : String) (rest : List PSeg) :
    paramNamesOf (.paramP n :: rest) = n :: paramNamesOf rest := by
  simp [paramNamesOf]

/-- The collected parameter names are the pattern's parameter names in
occurrence order. -/
theorem collectFold_fst (pmap : List (String × Parser)) :
    ∀ (segs : List PSeg) (acc : List String × List (String × Parser)),
      (∀ s, PSeg.staticP s ∈ segs → noColon s = true) →
      ((segs.map rawSeg).foldl (collectStep pmap) acc).1 = acc.1 ++ paramNamesOf segs
  | [], acc, _ => by simp [paramNamesOf]
  | .staticP s :: rest, acc, hstat => by
    have hs := startsColon_eq_false_of_noColon s (hstat s (List.mem_cons_self _ _))
    have hstep : collectStep pmap acc s = acc := by simp [collectStep, hs]
    simp only [List.map_cons, List.foldl_cons, rawSeg, hstep]
    rw [collectFold_fst pmap rest acc (fun s' h => hstat s' (List.mem_cons_of_mem _ h))]
    simp [paramNamesOf]
  | .paramP n :: rest, acc, hstat => by
    simp only [List.map_cons, List.foldl_cons, rawSeg]
    rw [show collectStep pmap acc (":" ++ n) =
        (acc.1 ++ [n],
         match lookupA pmap n with
         | some p => setA acc.2 n p
         | none => acc.2) from by
      simp [collectStep, startsColon_colon_append, tailStr_colon_append]]
    rw [collectFold_fst pmap rest _ (fun s' h => hstat s' (List.mem_cons_of_mem _ h))]
    simp [paramNamesOf, List.append_assoc]

/-- Every entry of the collected validator sub-map is one of the
definition's own validators, keyed by one of its parameter names. -/
theorem collectFold_mem (pmap : List (String × Parser)) :
    ∀ (segs : List PSeg) (acc : List String × List (String × Parser))
      (k : String) (p : Parser),
      (∀ s, PSeg.staticP s ∈ segs → noColon s = true) →
      (k, p) ∈ ((segs.map rawSeg).foldl (collectStep pmap) acc).2 →
      (k, p) ∈ acc.2 ∨ (lookupA pmap k = some p ∧ k ∈ paramNamesOf segs)
  | [], acc, k, p, _, h => Or.inl h
  | .staticP s :: rest, acc, k, p, hstat, h => by
    simp only [List.map_cons, List.foldl_cons, rawSeg] at h
    have hs := startsColon_eq_false_of_noColon s (hstat s (List.mem_cons_self _ _))
    rw [show collectStep pmap acc s = acc from by simp [collectStep, hs]] at h
    rcases collectFold_mem pmap rest acc k p
      (fun s' h' => hstat s' (List.mem_cons_of_mem _ h')) h with h' | h'
    · exact Or.inl h'
    · exact Or.inr ⟨h'.1, by rw [paramNamesOf_cons_static]; exact h'.2⟩
  | .paramP n :: rest, acc, k, p, hstat, h => by
    simp only [List.map_cons, List.foldl_cons, rawSeg] at h
    rw [show collectStep pmap acc (":" ++ n) =
        (acc.1 ++ [n],
         match lookupA pmap n with
         | some q => setA acc.2 n q
         | none => acc.2) from by
      simp [collectStep, startsColon_colon_append, tailStr_colon_append]] at h
    rcases collectFold_mem pmap rest _ k p
      (fun s' h' => hstat s' (List.mem_cons_of_mem _ h')) h with h' | h'
    · cases hq : lookupA pmap n with
      | none => rw [hq] at h'; exact Or.inl h'
      | some q =>
        rw [hq] at h'
        rcases setA_mem _ _ _ _ _ h' with h'' | h''
        · exact Or.inl h''
        · refine Or.inr ⟨by rw [h''.1, hq, h''.2],
            by rw [paramNamesOf_cons_param, h''.1]; exact List.mem_cons_self _ _⟩
    · exact Or.inr ⟨h'.1,
        by rw [paramNamesOf_cons_param]; exact List.mem_cons_of_mem _ h'.2⟩

/-- A parameter name the definition's `params` map covers looks up to
that same validator in the collected sub-map (whether it was already
recorded or is still to come). -/
theorem collectFold_lookup (pmap : List (String × Parser)) :
    ∀ (segs : List PSeg) (acc : List String × List (String × Parser))
      (k : String) (p : Parser),
      (∀ s, PSeg.staticP s ∈ segs → noColon s = true) →
      lookupA pmap k = some p →
      (lookupA acc.2 k = some p ∨ (lookupA acc.2 k = none ∧ k ∈ paramNamesOf segs)) →
      lookupA ((segs.map rawSeg).foldl (collectStep pmap) acc).2 k = some p
  | [], acc, k, p, _, _, hd => by
    rcases hd with hd | hd
    · exact hd
    · exact absurd hd.2 (by simp [paramNamesOf])
  | .staticP s :: rest, acc, k, p, hstat, hp, hd => by
    have hs := startsColon_eq_false_of_noColon s (hstat s (List.mem_cons_self _ _))
    simp only [List.map_cons, List.foldl_cons, rawSeg]
    rw [show collectStep pmap acc s = acc from by simp [collectStep, hs]]
    refine collectFold_lookup pmap rest acc k p
      (fun s' h' => hstat s' (List.mem_cons_of_mem _ h')) hp ?_
    rcases hd with hd | hd
    · exact Or.inl hd
    · rw [paramNamesOf_cons_static] at hd
      exact Or.inr hd
  | .paramP n :: rest, acc, k, p, hstat, hp, hd => by
    simp only [List.map_cons, List.foldl_cons, rawSeg]
    rw [show collectStep pmap acc (":" ++ n) =
        (acc.1 ++ [n],
         match lookupA pmap n with
         | some q => setA acc.2 n q
         | none => acc.2) from by
      simp [collectStep, startsColon_colon_append, tailStr_colon_append]]
    refine collectFold_lookup pmap rest _ k p
      (fun s' h' => hstat s' (List.mem_cons_of_mem _ h')) hp ?_
    by_cases hk : k = n
    · subst hk
      rw [hp]
      exact Or.inl (by simp [lookupA_setA_self])
    · cases hq : lookupA pmap n with
      | none =>
        rcases hd with hd | hd
        · exact Or.inl hd
        · rw [paramNamesOf_cons_param] at hd
          rcases List.mem_cons.mp hd.2 with h | h
          · exact absurd h hk
          · exact Or.inr ⟨hd.1, h⟩
      | some q =>
        rcases hd with hd | hd
        · exact Or.inl (by
            show lookupA (setA acc.2 n q) k = some p
            rw [lookupA_setA_ne _ _ _ _ (fun he => hk he.symm)]
            exact hd)
        · rw [paramNamesOf_cons_param] at hd
          rcases List.mem_cons.mp hd.2 with h | h
          · exact absurd h hk
          · refine Or.inr ⟨?_, h⟩
            show lookupA (setA acc.2 n q) k = none
            rw [lookupA_setA_ne _ _ _ _ (fun he => hk he.symm)]
            exact hd.1

/-! ## Trie navigation along a declared pattern (C2, C9) -/

/-- A value `createProxy`'s call treats as a parameter value
(`typeof value === 'string' || typeof value === 'number'`). -/
def isScalar : Value → Bool
  | .str _ => true
  | .num _ => true
  | _ => false

/-- Run an optional validator (`parser ? runParser(parser, v) : v`). -/
def resolveOpt (o : Option Parser) (v : Value) : Except String Value :=
  match o with
  | some p => runParser p v
  | none => .ok v

/-- The resolved segment a pattern segment becomes after substituting
the (validated) parameter value `rv n`. -/
def resolveSeg (rv : String → Value) : PSeg → Segment
  | .staticP s => .static s
  | .paramP n => .param n (jsString (rv n))

/-- The literal text each pattern segment contributes to the rendered
path after resolution. -/
def segStr (rv : String → Value) : PSeg → String
  | .staticP s => s
  | .paramP n => jsString (rv n)

/-- Drive a navigation object along a pattern: static segments descend
by property access, parametric segments call with the raw value from
the params record. -/
def navSegs (prms : List (String × Value)) : NavState → List PSeg → Except String NavState
  | nav, [] => .ok nav
  | nav, .staticP s :: rest =>
    match navGet nav s with
    | some nav' => navSegs prms nav' rest
    | none => .error "TypeError: undefined is not a function"
  | nav, .paramP n :: rest =>
    match navCall nav ((lookupA prms n).getD .undef) none with
    | .ok nav' => navSegs prms nav' rest
    | .error e => .error e

/-- Apply the final optional query-only call, then render. -/
def navFinish (q : Option QueryParams) (ts : Bool) (nav : NavState) : Except String String :=
  match q with
  | some qq =>
    match navCall nav (.obj qq) none with
    | .ok nav' => navToString nav' ts
    | .error e => .error e
  | none => navToString nav ts

/-- Render a declared route via trie navigation: first step off the
root proxy, remaining steps on navigation proxies, optional query-only
call, then `toString()`. -/
def navRoute (t : TreeNode) (segs : List PSeg) (prms : List (String × Value))
    (q : Option QueryParams) (ts : Bool) : Except String String :=
  match segs with
  | [] => rootToString
  | .staticP s :: rest =>
    match rootGet t s with
    | some nav =>
      match navSegs prms nav rest with
      | .ok nav' => navFinish q ts nav'
      | .error e => .error e
    | none => .error "TypeError: undefined is not a function"
  | .paramP n :: rest =>
    match rootCallValue t ((lookupA prms n).getD .undef) none with
    | .ok nav =>
      match navSegs prms nav rest with
      | .ok nav' => navFinish q ts nav'
      | .error e => .error e
    | .error e => .error e

theorem insertSegs_paramName (cfg : RouteConfig) (t : TreeNode) (segs : List String) :
    (insertSegs cfg t segs).paramName = t.paramName := by
  cases segs <;> cases t <;> rfl

theorem insertSegs_paramParser (cfg : RouteConfig) (t : TreeNode) (segs : List String) :
    (insertSegs cfg t segs).paramParser = t.paramParser := by
  cases segs <;> cases t <;> rfl

theorem markTerminal_queryParser (cfg : RouteConfig) (t : TreeNode)
    (h : t.queryParser = none) :
    (markTerminal cfg t).queryParser = cfg.query.map createObjectParser := by
  obtain ⟨ch, pn, pp, qp, m, term⟩ := t
  simp only [TreeNode.queryParser] at h
  subst h
  cases hq : cfg.query <;> simp [markTerminal, TreeNode.queryParser, hq]

theorem applyParamParser_paramName (o : Option Parser) (t : TreeNode) :
    (applyParamParser o t).paramName = t.paramName := by
  cases o <;> cases t <;> rfl

theorem applyParamParser_queryParser (o : Option Parser) (t : TreeNode) :
    (applyParamParser o t).queryParser = t.queryParser := by
  cases o <;> cases t <;> rfl

theorem applyParamParser_paramParser (o : Option Parser) (t : TreeNode) :
    (applyParamParser o t).paramParser =
      (match o with
       | some p => some p
       | none => t.paramParser) := by
  cases o <;> cases t <;> rfl

theorem resolveParamValue_eq (pn : TreeNode) (v : Value) :
    resolveParamValue pn v = resolveOpt pn.paramParser v := rfl

theorem resolveCallQuery_none (pn : TreeNode) :
    resolveCallQuery pn none = .ok none := by
  unfold resolveCallQuery
  cases pn.queryParser <;> rfl

/-- Navigating a freshly inserted linear spine: starting below a node
with no children, driving the navigation object along the definition's
own pattern validates each parameter with that definition's validator
and lands on the terminal node carrying the definition's query
validator. -/
theorem navSegs_spine (cfg : RouteConfig) (prms : List (String × Value))
    (val rv : String → Value) :
    ∀ (segs : List PSeg) (b : TreeNode) (nav : NavState),
      b.children = [] → b.queryParser = none →
      nav.tree = insertSegs cfg b (segs.map rawSeg) →
      nav.query = none →
      (∀ s, PSeg.staticP s ∈ segs → noColon s = true ∧ s ∉ reservedProps) →
      (∀ n, n ∈ paramNamesOf segs →
        lookupA prms n = some (val n) ∧ isScalar (val n) = true ∧
        resolveOpt (lookupA cfg.params n) (val n) = .ok (rv n)) →
      ∃ nav', navSegs prms nav segs = .ok nav' ∧
        nav'.segments = nav.segments ++ segs.map (resolveSeg rv) ∧
        nav'.query = none ∧
        nav'.tree.isTerminal = true ∧
        nav'.tree.queryParser = cfg.query.map createObjectParser
  | [], b, nav, _, hbq, htree, hq, _, _ => by
    refine ⟨nav, rfl, by simp, hq, ?_, ?_⟩
    · rw [htree]
      simp only [List.map_nil]
      rw [insertSegs_nil]
      exact markTerminal_isTerminal cfg b
    · rw [htree]
      simp only [List.map_nil]
      rw [insertSegs_nil]
      exact markTerminal_queryParser cfg b hbq
  | .staticP s :: rest, b, nav, hbch, hbq, htree, hq, hstat, hvals => by
    obtain ⟨hnc, hnres⟩ := hstat s (List.mem_cons_self _ _)
    have hs := startsColon_eq_false_of_noColon s hnc
    obtain ⟨ch, pnb, ppb, qpb, mb, termb⟩ := b
    simp only [TreeNode.children] at hbch
    subst hbch
    have htree' : nav.tree =
        TreeNode.mk [(s, insertSegs cfg (freshNode none) (rest.map rawSeg))]
          pnb ppb qpb mb termb := by
      rw [htree]
      simp only [List.map_cons, rawSeg]
      rw [insertSegs_cons_static cfg [] pnb ppb qpb mb termb s (rest.map rawSeg) hs]
      simp [lookupA, setA]
    have hget : navGet nav s = some
        ⟨nav.segments ++ [.static s], none,
         insertSegs cfg (freshNode none) (rest.map rawSeg),
         (insertSegs cfg (freshNode none) (rest.map rawSeg)).meta⟩ := by
      simp [navGet, hnres, htree', TreeNode.children, lookupA]
    obtain ⟨nav', hrun, hsegs, hq', hterm, hqp⟩ :=
      navSegs_spine cfg prms val rv rest (freshNode none)
        ⟨nav.segments ++ [.static s], none,
         insertSegs cfg (freshNode none) (rest.map rawSeg),
         (insertSegs cfg (freshNode none) (rest.map rawSeg)).meta⟩
        rfl rfl rfl rfl
        (fun s' h => hstat s' (List.mem_cons_of_mem _ h))
        (fun n h => hvals n (by rw [paramNamesOf_cons_static]; exact h))
    refine ⟨nav', ?_, ?_, hq', hterm, hqp⟩
    · simp only [navSegs, hget]
      exact hrun
    · rw [hsegs]
      simp [resolveSeg, List.append_assoc]
  | .paramP n :: rest, b, nav, hbch, hbq, htree, hq, hstat, hvals => by
    obtain ⟨hval, hscal, hres⟩ := hvals n (by rw [paramNamesOf_cons_param]; exact List.mem_cons_self _ _)
    obtain ⟨ch, pnb, ppb, qpb, mb, termb⟩ := b
    simp only [TreeNode.children] at hbch
    subst hbch
    have htree' : nav.tree =
        TreeNode.mk [("$param",
          insertSegs cfg
            (applyParamParser (lookupA cfg.params n) (freshNode (some n)))
            (rest.map rawSeg))]
          pnb ppb qpb mb termb := by
      rw [htree]
      simp only [List.map_cons, rawSeg]
      rw [insertSegs_cons_param cfg [] pnb ppb qpb mb termb (":" ++ n) (rest.map rawSeg)
        (startsColon_colon_append n)]
      simp [lookupA, setA, tailStr_colon_append]
    have hsubpp : (insertSegs cfg
        (applyParamParser (lookupA cfg.params n) (freshNode (some n)))
        (rest.map rawSeg)).paramParser = lookupA cfg.params n := by
      rw [insertSegs_paramParser, applyParamParser_paramParser]
      cases lookupA cfg.params n <;> rfl
    have hsubpn : (insertSegs cfg
        (applyParamParser (lookupA cfg.params n) (freshNode (some n)))
        (rest.map rawSeg)).paramName = some n := by
      rw [insertSegs_paramName, applyParamParser_paramName]
      rfl
    have hcall : navCall nav ((lookupA prms n).getD .undef) none = .ok
        ⟨nav.segments ++ [.param n (jsString (rv n))], none,
         insertSegs cfg (applyParamParser (lookupA cfg.params n) (freshNode (some n)))
           (rest.map rawSeg),
         (insertSegs cfg (applyParamParser (lookupA cfg.params n) (freshNode (some n)))
           (rest.map rawSeg)).meta⟩ := by
      rw [hval]
      simp only [Option.getD_some]
      have hrpv : resolveParamValue
          (insertSegs cfg (applyParamParser (lookupA cfg.params n) (freshNode (some n)))
            (rest.map rawSeg)) (val n) = .ok (rv n) := by
        rw [resolveParamValue_eq, hsubpp]
        exact hres
      cases hv : val n with
      | str s' =>
        rw [hv] at hrpv
        simp only [navCall, htree', TreeNode.children, lookupA, if_pos rfl, if_true, hrpv,
          resolveCallQuery_none, hsubpn, Option.getD_some]
      | num i =>
        rw [hv] at hrpv
        simp only [navCall, htree', TreeNode.children, lookupA, if_pos rfl, if_true, hrpv,
          resolveCallQuery_none, hsubpn, Option.getD_some]
      | undef => rw [hv] at hscal; exact absurd hscal (by simp [isScalar])
      | obj fs => rw [hv] at hscal; exact absurd hscal (by simp [isScalar])
    obtain ⟨nav', hrun, hsegs, hq', hterm, hqp⟩ :=
      navSegs_spine cfg prms val rv rest
        (applyParamParser (lookupA cfg.params n) (freshNode (some n)))
        ⟨nav.segments ++ [.param n (jsString (rv n))], none,
         insertSegs cfg (applyParamParser (lookupA cfg.params n) (freshNode (some n)))
           (rest.map rawSeg),
         (insertSegs cfg (applyParamParser (lookupA cfg.params n) (freshNode (some n)))
           (rest.map rawSeg)).meta⟩
        (by rw [applyParamParser_children]; rfl)
        (by rw [applyParamParser_queryParser]; rfl)
        rfl rfl
        (fun s' h => hstat s' (List.mem_cons_of_mem _ h))
        (fun n' h => hvals n' (by rw [paramNamesOf_cons_param]; exact List.mem_cons_of_mem _ h))
    refine ⟨nav', ?_, ?_, hq', hterm, hqp⟩
    · simp only [navSegs, hcall]
      exact hrun
    · rw [hsegs]
      simp [resolveSeg, List.append_assoc]

/-! ## Bridging the named registry and the trie render (C2) -/

theorem runParser_createObjectParser (m : List (String × Parser)) (r : List (String × Value)) :
    runParser (createObjectParser m) (.obj r) = (objParse m r).map Value.obj := rfl

/-- The registry entry `buildNamedRoutes` constructs for one named
config definition. -/
def namedEntry (cfg : RouteConfig) (ts : Bool) : NamedRoute :=
  ⟨cfg.path,
   (collectParams (splitSegs cfg.path) cfg.params).1,
   (if (collectParams (splitSegs cfg.path) cfg.params).2.isEmpty then none
    else some (createObjectParser (collectParams (splitSegs cfg.path) cfg.params).2)),
   cfg.query.map createObjectParser, cfg.meta, ts⟩

theorem buildNamedRoutes_single (cfg : RouteConfig) (nm : String) (ts : Bool)
    (h : cfg.name = some nm) :
    buildNamedRoutes [.cfgD cfg] ts = [(nm, namedEntry cfg ts)] := by
  simp [buildNamedRoutes, h, setA, namedEntry]

theorem foldl_replaceFirst_data (valf : String → String) :
    ∀ (names : List String) (s : String),
      (names.foldl (fun acc p => replaceFirst acc (":" ++ p) (valf p)) s).data =
        names.foldl (fun acc p => charReplaceFirst acc (':' :: p.data) ((valf p).data)) s.data
  | [], s => rfl
  | p :: ps, s => by
    simp only [List.foldl_cons]
    rw [foldl_replaceFirst_data valf ps (replaceFirst s (":" ++ p) (valf p))]
    rfl

theorem strAppend_empty (s : String) : s ++ "" = s := by
  apply String.ext
  rw [strData_append]
  simp

theorem map_segValue_resolveSeg (rv : String → Value) (segs : List PSeg) :
    (segs.map (resolveSeg rv)).map segValue = segs.map (segStr rv) := by
  induction segs with
  | nil => rfl
  | cons sg rest ih =>
    cases sg <;> simp [resolveSeg, segStr, segValue, ih]

theorem rootGet_eq_navGet (t : TreeNode) (prop : String) (h : prop ∉ rootReserved) :
    rootGet t prop = navGet ⟨[], none, t, none⟩ prop := by
  have h' : prop ∉ reservedProps := fun hin => h (List.mem_cons_of_mem _ hin)
  simp [rootGet, navGet, h, h']

theorem rootCallValue_eq_navCall (t : TreeNode) (v : Value) (mq : Option QueryParams)
    (h : isScalar v = true) :
    rootCallValue t v mq = navCall ⟨[], none, t, none⟩ v mq := by
  cases v with
  | str s => rfl
  | num i => rfl
  | undef => simp [isScalar] at h
  | obj fs => simp [isScalar] at h

/-- `navRoute`'s first step off the root proxy agrees with a plain
`navSegs` run from the root state. -/
theorem navRoute_eq (t : TreeNode) (segs : List PSeg) (prms : List (String × Value))
    (q : Option QueryParams) (ts : Bool)
    (h : match segs with
         | [] => False
         | .staticP s :: _ => s ∉ rootReserved
         | .paramP n :: _ => isScalar ((lookupA prms n).getD .undef) = true) :
    navRoute t segs prms q ts =
      match navSegs prms ⟨[], none, t, none⟩ segs with
      | .ok nav' => navFinish q ts nav'
      | .error e => .error e := by
  cases segs with
  | nil => exact absurd h (by simp)
  | cons sg rest =>
    cases sg with
    | staticP s =>
      show navRoute t (.staticP s :: rest) prms q ts = _
      rw [navRoute, rootGet_eq_navGet t s h]
      rw [show navSegs prms ⟨[], none, t, none⟩ (.staticP s :: rest) =
          (match navGet ⟨[], none, t, none⟩ s with
           | some nav' => navSegs prms nav' rest
           | none => .error "TypeError: undefined is not a function") from rfl]
      cases navGet ⟨[], none, t, none⟩ s with
      | none => rfl
      | some nav₁ => cases navSegs prms nav₁ rest <;> rfl
    | paramP n =>
      show navRoute t (.paramP n :: rest) prms q ts = _
      rw [navRoute, rootCallValue_eq_navCall t _ none h]
      rw [show navSegs prms ⟨[], none, t, none⟩ (.paramP n :: rest) =
          (match navCall ⟨[], none, t, none⟩ ((lookupA prms n).getD .undef) none with
           | .ok nav' => navSegs prms nav' rest
           | .error e => .error e) from rfl]
      cases navCall ⟨[], none, t, none⟩ ((lookupA prms n).getD .undef) none with
      | error e => rfl
      | ok nav₁ => cases navSegs prms nav₁ rest <;> rfl

/-- Resolving the params record through the named entry's combined
validator produces, for each of the route's parameter names, exactly
the value that parameter's own validator (or no validator) yields —
provided the definition's `params` either covers every parameter or is
empty (the mixed case drops validator-less parameters, see C9). -/
theorem namedResolve_single (cfg : RouteConfig) (segs : List PSeg) (ts : Bool)
    (prms : List (String × Value)) (val rv : String → Value)
    (hsplit : splitSegs cfg.path = segs.map rawSeg)
    (hstat : ∀ s, PSeg.staticP s ∈ segs → noColon s = true)
    (hvals : ∀ n, n ∈ paramNamesOf segs →
      lookupA prms n = some (val n) ∧
      resolveOpt (lookupA cfg.params n) (val n) = .ok (rv n))
    (hcover : (∀ n ∈ paramNamesOf segs, (lookupA cfg.params n).isSome = true) ∨
      cfg.params = []) :
    ∃ resolved,
      namedResolveParams (namedEntry cfg ts) prms = .ok resolved ∧
      ∀ n ∈ paramNamesOf segs, lookupA resolved n = some (rv n) := by
  have hcoll : collectParams (splitSegs cfg.path) cfg.params =
      (segs.map rawSeg).foldl (collectStep cfg.params) ([], []) := by
    rw [hsplit, collectParams]
  rcases hcover with hcover | hparams
  · by_cases hm : (collectParams (splitSegs cfg.path) cfg.params).2.isEmpty = true
    · -- the sub-map is empty: no parameter can be covered, so there are no parameters
      refine ⟨prms, ?_, ?_⟩
      · simp [namedResolveParams, namedEntry, hm]
      · intro n hn
        obtain ⟨p, hp⟩ := Option.isSome_iff_exists.mp (hcover n hn)
        have hl := collectFold_lookup cfg.params segs ([], []) n p hstat hp
          (Or.inr ⟨rfl, hn⟩)
        rw [← hcoll] at hl
        rw [lookupA_isEmpty_false _ _ _ hl] at hm
        exact absurd hm (by simp)
    · -- the sub-map is the definition's own validators for its names
      have hmem : ∀ k p, (k, p) ∈ (collectParams (splitSegs cfg.path) cfg.params).2 →
          lookupA cfg.params k = some p ∧ k ∈ paramNamesOf segs := by
        intro k p hk
        rw [hcoll] at hk
        rcases collectFold_mem cfg.params segs ([], []) k p hstat hk with h | h
        · exact absurd h (by simp)
        · exact h
      obtain ⟨out, hout⟩ :=
        (objParse_only_present_keys (collectParams (splitSegs cfg.path) cfg.params).2 prms).1
          (by
            intro k p raw hkp hraw
            obtain ⟨hp, hkn⟩ := hmem k p hkp
            obtain ⟨hlp, hro⟩ := hvals k hkn
            rw [hlp] at hraw
            cases hraw
            refine ⟨rv k, ?_⟩
            rw [hp] at hro
            exact hro)
      refine ⟨out, ?_, ?_⟩
      · simp [namedResolveParams, namedEntry, hm, runParser_createObjectParser,
          hout, valueToRecord, Except.map]
      · intro n hn
        obtain ⟨p, hp⟩ := Option.isSome_iff_exists.mp (hcover n hn)
        have hl := collectFold_lookup cfg.params segs ([], []) n p hstat hp
          (Or.inr ⟨rfl, hn⟩)
        rw [← hcoll] at hl
        obtain ⟨hlp, hro⟩ := hvals n hn
        obtain ⟨v, hvout, hrun⟩ :=
          ((objParse_only_present_keys _ prms).2 out hout).2.2.2 n p (val n) hl hlp
        rw [hp] at hro
        simp only [resolveOpt] at hro
        rw [hrun] at hro
        cases hro
        exact hvout
  · -- no validators at all: the combined validator is absent
    have hm : (collectParams (splitSegs cfg.path) cfg.params).2 = [] := by
      rw [hcoll]
      refine List.eq_nil_iff_forall_not_mem.mpr ?_
      rintro ⟨k, p⟩ hk
      rcases collectFold_mem cfg.params segs ([], []) k p hstat hk with h | h
      · simp at h
      · rw [hparams] at h
        simp [lookupA] at h
    refine ⟨prms, ?_, ?_⟩
    · simp [namedResolveParams, namedEntry, hm]
    · intro n hn
      obtain ⟨hlp, hro⟩ := hvals n hn
      rw [hparams] at hro
      simp only [lookupA, resolveOpt, Except.ok.injEq] at hro
      rw [hlp, hro]

theorem mem_paramNamesOf (n : String) (segs : List PSeg) (h : PSeg.paramP n ∈ segs) :
    n ∈ paramNamesOf segs := by
  simp only [paramNamesOf, List.mem_filterMap]
  exact ⟨.paramP n, h, rfl⟩

theorem namedEntry_pattern (cfg : RouteConfig) (ts : Bool) :
    (namedEntry cfg ts).pattern = cfg.path := rfl

theorem namedEntry_trailingSlash (cfg : RouteConfig) (ts : Bool) :
    (namedEntry cfg ts).trailingSlash = ts := rfl

theorem namedEntry_meta (cfg : RouteConfig) (ts : Bool) :
    (namedEntry cfg ts).meta = cfg.meta := rfl

theorem namedResolveQuery_none (route : NamedRoute) :
    namedResolveQuery route none = .ok none := by
  unfold namedResolveQuery
  cases route.queryParser <;> rfl

/-- **C2 (amended).** For a single-definition route table whose named
route's pattern is canonical (nonempty segments, colon-free static
segments avoiding the proxies' reserved names), whose `params` map
either covers every parameter or is empty, with scalar parameter values
accepted by their validators and resolving to colon-free, dollar-free
strings (a colon would be captured by the first-occurrence replacement,
a dollar would trigger its `GetSubstitution` expansion), an accepted
query, and the default `trailingSlash = false`, the string produced by
`getRouteByName` is exactly the string produced by rendering the same
route via trie navigation with the same values. -/
theorem named_lookup_matches_trie_render
    (cfg : RouteConfig) (segs : List PSeg) (nm : String)
    (prms : List (String × Value)) (q : Option QueryParams)
    (val rv : String → Value)
    (hname : cfg.name = some nm)
    (hpath : cfg.path = "/" ++ joinSlash (segs.map rawSeg))
    (hsplit : splitSegs cfg.path = segs.map rawSeg)
    (hne : segs ≠ [])
    (hstat : ∀ s, PSeg.staticP s ∈ segs → noColon s = true ∧ s ∉ rootReserved)
    (hvals : ∀ n, n ∈ paramNamesOf segs →
      lookupA prms n = some (val n) ∧ isScalar (val n) = true ∧
      resolveOpt (lookupA cfg.params n) (val n) = .ok (rv n) ∧
      noColon (jsString (rv n)) = true ∧
      noDollar (jsString (rv n)) = true)
    (hcover : (∀ n ∈ paramNamesOf segs, (lookupA cfg.params n).isSome = true) ∨
      cfg.params = [])
    (hquery : ∀ qq mq, q = some qq → cfg.query = some mq →
      ∃ out, objParse mq qq = .ok out) :
    ∃ res, getRouteByName (buildNamedRoutes [.cfgD cfg] false) nm (some prms) q = .ok res ∧
      navRoute (buildTree [.cfgD cfg]) segs prms q false = .ok res.path := by
  obtain ⟨resolved, hres, hlook⟩ := namedResolve_single cfg segs false prms val rv hsplit
    (fun s h => (hstat s h).1)
    (fun n h => ⟨(hvals n h).1, (hvals n h).2.2.1⟩) hcover
  -- the collected parameter names are the pattern's names
  have hnames : (namedEntry cfg false).paramNames = paramNamesOf segs := by
    show (collectParams (splitSegs cfg.path) cfg.params).1 = paramNamesOf segs
    rw [hsplit, collectParams,
      collectFold_fst cfg.params segs ([], []) (fun s h => (hstat s h).1)]
    rfl
  -- the substituted pattern equals the slash-join of the resolved texts
  obtain ⟨s0, rest, rfl⟩ : ∃ s0 rest, segs = s0 :: rest := by
    cases segs with
    | nil => exact absurd rfl hne
    | cons s0 rest => exact ⟨s0, rest, rfl⟩
  have hsub : (paramNamesOf (s0 :: rest)).foldl
      (fun acc p => replaceFirst acc (":" ++ p) (jsStringOpt (lookupA resolved p)))
      cfg.path = "/" ++ joinSlash ((s0 :: rest).map (segStr rv)) := by
    apply String.ext
    rw [foldl_replaceFirst_data]
    rw [show cfg.path.data = segsChars rawSeg (s0 :: rest) from by
      rw [hpath]; exact joinSlash_data rawSeg s0 rest]
    have hchain := replace_chain (fun n => (jsStringOpt (lookupA resolved n)).data)
      (s0 :: rest) [] rfl (fun s h => (hstat s h).1)
      (fun n h => by
        show noColonL ((jsStringOpt (lookupA resolved n)).data) = true
        rw [hlook n (mem_paramNamesOf n _ h)]
        exact (hvals n (mem_paramNamesOf n _ h)).2.2.2.1)
      (fun n h => by
        show noDollarL ((jsStringOpt (lookupA resolved n)).data) = true
        rw [hlook n (mem_paramNamesOf n _ h)]
        exact (hvals n (mem_paramNamesOf n _ h)).2.2.2.2)
    simp only [List.nil_append] at hchain
    rw [hchain]
    rw [resCharsF_eq_segsChars _ (segStr rv) (s0 :: rest)
      (fun s _ => rfl)
      (fun n h => by rw [hlook n (mem_paramNamesOf n _ h)]; rfl)]
    rw [joinSlash_data (segStr rv) s0 rest]
  -- the trie built from the single definition is the fresh spine
  have htree0 : buildTree [.cfgD cfg] = insertSegs cfg (freshNode none)
      ((s0 :: rest).map rawSeg) := by
    show insertOne (freshNode none) (.cfgD cfg) = _
    rw [show insertOne (freshNode none) (.cfgD cfg) =
      insertSegs cfg (freshNode none) (splitSegs cfg.path) from rfl, hsplit]
  obtain ⟨nav', hrun, hsegsnav, hqnav, hterm, hqp⟩ :=
    navSegs_spine cfg prms val rv (s0 :: rest) (freshNode none)
      ⟨[], none, buildTree [.cfgD cfg], none⟩ rfl rfl (by rw [htree0]) rfl
      (fun s h => ⟨(hstat s h).1,
        fun hin => (hstat s h).2 (List.mem_cons_of_mem _ hin)⟩)
      (fun n h => ⟨(hvals n h).1, (hvals n h).2.1, (hvals n h).2.2.1⟩)
  have hfirst : match (s0 :: rest : List PSeg) with
      | [] => False
      | .staticP s :: _ => s ∉ rootReserved
      | .paramP n :: _ => isScalar ((lookupA prms n).getD .undef) = true := by
    cases s0 with
    | staticP s => exact (hstat s (List.mem_cons_self _ _)).2
    | paramP n =>
      show isScalar ((lookupA prms n).getD .undef) = true
      have h := hvals n (by rw [paramNamesOf_cons_param]; exact List.mem_cons_self _ _)
      rw [h.1]
      exact h.2.1
  have hnav' : navRoute (buildTree [.cfgD cfg]) (s0 :: rest) prms q false =
      navFinish q false nav' := by
    rw [navRoute_eq _ _ _ _ _ hfirst, hrun]
  have hsegs' : nav'.segments = (s0 :: rest).map (resolveSeg rv) := by
    rw [hsegsnav]; rfl
  -- the base rendered path agrees on both sides
  have hbase : buildPath ((s0 :: rest).map (resolveSeg rv)) none false =
      "/" ++ joinSlash ((s0 :: rest).map (segStr rv)) := by
    simp only [buildPath, if_false, Bool.false_eq_true]
    rw [map_segValue_resolveSeg, strAppend_empty]
  -- assemble, by cases on the query
  rw [buildNamedRoutes_single cfg nm false hname]
  cases hq : q with
  | none =>
    refine ⟨⟨"/" ++ joinSlash ((s0 :: rest).map (segStr rv)), cfg.path, cfg.meta, none⟩,
      ?_, ?_⟩
    · simp only [getRouteByName, lookupA, if_pos rfl, if_true, eq_self_iff_true,
        Option.getD_some, hres, namedResolveQuery_none, namedEntry_pattern,
        namedEntry_trailingSlash, namedEntry_meta, hnames, hsub, Bool.false_and,
        Bool.false_eq_true, if_false]
    · rw [hq] at hnav'
      rw [hnav']
      simp only [navFinish, navToString, hterm, if_true, hqnav, hsegs', hbase]
  | some qq =>
    have hquery' : ∃ rq, namedResolveQuery (namedEntry cfg false) (some qq) = .ok (some rq) ∧
        navCall nav' (.obj qq) none =
          .ok ⟨nav'.segments, some rq, nav'.tree, nav'.tree.meta⟩ := by
      cases hcq : cfg.query with
      | none =>
        refine ⟨qq, ?_, ?_⟩
        · show namedResolveQuery (namedEntry cfg false) (some qq) = .ok (some qq)
          unfold namedResolveQuery
          show (match (some qq : Option QueryParams), (namedEntry cfg false).queryParser with
            | some q, some qp => _ | some q, none => _ | none, _ => _) = _
          rw [show (namedEntry cfg false).queryParser = cfg.query.map createObjectParser
            from rfl, hcq]
          rfl
        · unfold navCall
          rw [hqp, hcq]
          rfl
      | some mq =>
        obtain ⟨qout, hqout⟩ := hquery qq mq hq hcq
        refine ⟨qout, ?_, ?_⟩
        · unfold namedResolveQuery
          rw [show (namedEntry cfg false).queryParser = cfg.query.map createObjectParser
            from rfl, hcq]
          simp [runParser_createObjectParser, hqout, valueToRecord, Option.map, Except.map]
        · unfold navCall
          rw [hqp, hcq]
          simp [runParser_createObjectParser, hqout, valueToRecord, Option.map, Except.map]
    obtain ⟨rq, hnq, hnavq⟩ := hquery'
    refine ⟨⟨(if rq.isEmpty then
        "/" ++ joinSlash ((s0 :: rest).map (segStr rv))
      else
        "/" ++ joinSlash ((s0 :: rest).map (segStr rv)) ++ "?" ++ queryString rq),
      cfg.path, cfg.meta, some rq⟩, ?_, ?_⟩
    · simp only [getRouteByName, lookupA, if_pos rfl, if_true, eq_self_iff_true,
        Option.getD_some, hres, hnq, namedEntry_pattern, namedEntry_trailingSlash,
        namedEntry_meta, hnames, hsub, Bool.false_and, Bool.false_eq_true, if_false]
    · rw [hq] at hnav'
      rw [hnav']
      simp only [navFinish, hnavq, navToString, hterm, if_true, hsegs']
      simp only [buildPath, if_false, Bool.false_eq_true,
        map_segValue_resolveSeg, strAppend_empty]

/-- **C2 (counterexample).** The claim fails as stated: for the named
route `/a:x/:x` (a static segment containing a colon) with `x = "v"`,
`getRouteByName`'s first-occurrence textual replacement mangles the
static segment and produces `"/av/:x"`, while trie navigation renders
`"/a:x/v"`. -/
theorem named_lookup_matches_trie_render_counterexample :
    (getRouteByName
        (buildNamedRoutes [.cfgD ⟨"/a:x/:x", [], none, some "r", none⟩] false)
        "r" (some [("x", .str "v")]) none).map RenderedRoute.path = .ok "/av/:x" ∧
    navRoute (buildTree [.cfgD ⟨"/a:x/:x", [], none, some "r", none⟩])
      [.staticP "a:x", .paramP "x"] [("x", .str "v")] none false = .ok "/a:x/v" ∧
    ("/av/:x" : String) ≠ "/a:x/v" :=
  ⟨rfl, rfl, by decide⟩

/-- Witness for C2's amended theorem: the named route `/users/:id`
with `id = "7"` renders `"/users/7"` identically through `getRouteByName`
and through trie navigation. -/
theorem named_lookup_matches_trie_render_witness :
    (∃ res, getRouteByName
        (buildNamedRoutes [.cfgD ⟨"/users/:id", [], none, some "user", none⟩] false)
        "user" (some [("id", Value.str "7")]) none = .ok res ∧
      navRoute (buildTree [.cfgD ⟨"/users/:id", [], none, some "user", none⟩])
        [.staticP "users", .paramP "id"] [("id", Value.str "7")] none false =
        .ok res.path) ∧
    (getRouteByName
        (buildNamedRoutes [.cfgD ⟨"/users/:id", [], none, some "user", none⟩] false)
        "user" (some [("id", Value.str "7")]) none).map RenderedRoute.path =
      .ok "/users/7" := by
  refine ⟨?_, rfl⟩
  refine named_lookup_matches_trie_render
    ⟨"/users/:id", [], none, some "user", none⟩
    [.staticP "users", .paramP "id"] "user" [("id", Value.str "7")] none
    (fun _ => Value.str "7") (fun _ => Value.str "7")
    rfl (by decide) (by decide) (by simp) ?_ ?_ (Or.inr rfl) ?_
  · intro s h
    simp only [List.mem_cons, List.not_mem_nil, or_false] at h
    rcases h with h | h
    · cases h
      exact ⟨by decide, by decide⟩
    · cases h
  · intro n h
    have hn : n = "id" := by
      simpa [paramNamesOf] using h
    subst hn
    exact ⟨rfl, rfl, rfl, by decide, by decide⟩
  · intro qq mq h
    cases h

/-! ## C9: missing parameters render as the literal "undefined" -/

theorem resCharsF_append (f : String → List Char) (l1 l2 : List PSeg) :
    resCharsF f (l1 ++ l2) = resCharsF f l1 ++ resCharsF f l2 := by
  induction l1 with
  | nil => rfl
  | cons sg rest ih => cases sg <;> simp [resCharsF, ih]

/-- The first binding `lookupA` finds is a member of the list. -/
theorem lookupA_mem {α : Type} : ∀ (l : List (String × α)) (k : String) (v : α),
    lookupA l k = some v → (k, v) ∈ l
  | [], k, v, h => by simp [lookupA] at h
  | (k0, v0) :: rest, k, v, h => by
    by_cases hk : k0 = k
    · subst hk
      simp only [lookupA, if_true, eq_self_iff_true, Option.some.injEq] at h
      subst h
      exact List.mem_cons_self _ _
    · simp only [lookupA, if_neg hk] at h
      exact List.mem_cons_of_mem _ (lookupA_mem rest k v h)

/-- The per-segment text after parameter resolution: a static segment
keeps its text, a parametric one stringifies the resolved record's
value for its name (`"undefined"` when the key is absent). -/
def resolvedSegStr (resolved : List (String × Value)) : PSeg → String
  | .staticP s => s
  | .paramP n => jsStringOpt (lookupA resolved n)

/-- **C9 (counterexample).** The claim fails as stated: for the named
route `/a/:id/:q` whose `q` has a rejecting validator, calling
`getRouteByName` with the record `\x7bq: "bad"\x7d` — which omits the
parameter `id` — raises the validator error, so omitting a parameter
does not guarantee the call "does not raise an error". -/
theorem named_missing_param_counterexample :
    (getRouteByName
        (buildNamedRoutes
          [.cfgD ⟨"/a/:id/:q", [("q", .func (fun _ => .error "Invalid value"))],
            none, some "r", none⟩] false)
        "r" (some [("q", Value.str "bad")]) none
      = .error "Invalid value") ∧
    lookupA [("q", Value.str "bad")] "id" = none :=
  ⟨rfl, rfl⟩

/-- **C9 (amended).** Omission itself never raises: for any route table
whose registry entry for `nm` is the canonical named route of `cfg`
(colon-free static segments) containing a parametric segment `p`, and
any params record that omits `p`, provided the parameters that are
present and have validators are accepted by them (with colon- and
dollar-free resolved strings, so substitution is literal),
`getRouteByName` returns ok and the rendered path contains the literal
string `"undefined"` where `p`'s value would go.  Without the
acceptance proviso the call can raise — from a present parameter's
validator, never from the omission. -/
theorem named_missing_param_renders_undefined
    (defs : List RouteDefinition) (cfg : RouteConfig) (segs : List PSeg)
    (nm : String) (p : String) (prms : List (String × Value))
    (hentry : lookupA (buildNamedRoutes defs false) nm = some (namedEntry cfg false))
    (hpath : cfg.path = "/" ++ joinSlash (segs.map rawSeg))
    (hsplit : splitSegs cfg.path = segs.map rawSeg)
    (hstat : ∀ s, PSeg.staticP s ∈ segs → noColon s = true)
    (hp : PSeg.paramP p ∈ segs)
    (homit : lookupA prms p = none)
    (hok : ∀ k pr raw, (k, pr) ∈ (collectParams (splitSegs cfg.path) cfg.params).2 →
      lookupA prms k = some raw →
      ∃ v, runParser pr raw = .ok v ∧ noColon (jsString v) = true ∧
        noDollar (jsString v) = true)
    (hsafe : ∀ n, n ∈ paramNamesOf segs →
      noColon (jsStringOpt (lookupA prms n)) = true ∧
      noDollar (jsStringOpt (lookupA prms n)) = true) :
    ∃ res, getRouteByName (buildNamedRoutes defs false) nm
        (some prms) none = .ok res ∧
      ∃ pre post, res.path = pre ++ "undefined" ++ post := by
  -- resolution succeeds, leaves the omitted name unbound, and keeps
  -- every parameter's resolved string colon- and dollar-free
  have hresolved : ∃ resolved,
      namedResolveParams (namedEntry cfg false) prms = .ok resolved ∧
      lookupA resolved p = none ∧
      ∀ n, n ∈ paramNamesOf segs →
        noColon (jsStringOpt (lookupA resolved n)) = true ∧
        noDollar (jsStringOpt (lookupA resolved n)) = true := by
    by_cases hm : (collectParams (splitSegs cfg.path) cfg.params).2.isEmpty = true
    · exact ⟨prms, by simp [namedResolveParams, namedEntry, hm], homit, hsafe⟩
    · obtain ⟨out, hout⟩ :=
        (objParse_only_present_keys (collectParams (splitSegs cfg.path) cfg.params).2 prms).1
          (by
            intro k pr raw hkp hraw
            obtain ⟨v, hv, _, _⟩ := hok k pr raw hkp hraw
            exact ⟨v, hv⟩)
      obtain ⟨ha, hb, hc, hd⟩ := (objParse_only_present_keys _ prms).2 out hout
      refine ⟨out, ?_, hb p homit, ?_⟩
      · simp [namedResolveParams, namedEntry, hm, runParser_createObjectParser,
          hout, valueToRecord, Except.map]
      · intro n hn
        cases hmn : lookupA (collectParams (splitSegs cfg.path) cfg.params).2 n with
        | none =>
          rw [hc n hmn]
          exact ⟨by decide, by decide⟩
        | some pr =>
          cases hpn : lookupA prms n with
          | none =>
            rw [hb n hpn]
            exact ⟨by decide, by decide⟩
          | some raw =>
            obtain ⟨v, hvout, hrun⟩ := hd n pr raw hmn hpn
            obtain ⟨v2, hrun2, hcv, hdv⟩ := hok n pr raw
              (lookupA_mem _ _ _ hmn) hpn
            rw [hrun] at hrun2
            have hv2 : v = v2 := by injection hrun2
            subst hv2
            rw [hvout]
            exact ⟨hcv, hdv⟩
  obtain ⟨resolved, hres, hnonep, hsafeR⟩ := hresolved
  have hnames : (namedEntry cfg false).paramNames = paramNamesOf segs := by
    show (collectParams (splitSegs cfg.path) cfg.params).1 = paramNamesOf segs
    rw [hsplit, collectParams,
      collectFold_fst cfg.params segs ([], []) hstat]
    rfl
  obtain ⟨s0, rest0, hcons⟩ : ∃ s0 rest0, segs = s0 :: rest0 := by
    cases segs with
    | nil => cases hp
    | cons s0 rest0 => exact ⟨s0, rest0, rfl⟩
  -- the substitution chain puts each resolved text in its position
  have hsub : (paramNamesOf segs).foldl
      (fun acc q => replaceFirst acc (":" ++ q) (jsStringOpt (lookupA resolved q)))
      cfg.path = "/" ++ joinSlash (segs.map (resolvedSegStr resolved)) := by
    apply String.ext
    rw [foldl_replaceFirst_data]
    rw [show cfg.path.data = segsChars rawSeg segs from by
      rw [hpath, hcons]; exact joinSlash_data rawSeg s0 rest0]
    have hchain := replace_chain (fun n => (jsStringOpt (lookupA resolved n)).data)
      segs [] rfl hstat
      (fun n h => by
        show noColonL ((jsStringOpt (lookupA resolved n)).data) = true
        exact (hsafeR n (mem_paramNamesOf n _ h)).1)
      (fun n h => by
        show noDollarL ((jsStringOpt (lookupA resolved n)).data) = true
        exact (hsafeR n (mem_paramNamesOf n _ h)).2)
    simp only [List.nil_append] at hchain
    rw [hchain]
    rw [resCharsF_eq_segsChars (fun n => (jsStringOpt (lookupA resolved n)).data)
      (resolvedSegStr resolved) segs (fun s _ => rfl) (fun n _ => rfl)]
    rw [hcons]
    rw [joinSlash_data (resolvedSegStr resolved) s0 rest0]
  refine ⟨⟨"/" ++ joinSlash (segs.map (resolvedSegStr resolved)),
    cfg.path, cfg.meta, none⟩, ?_, ?_⟩
  · simp only [getRouteByName, hentry, Option.getD_some, hres,
      namedResolveQuery_none, namedEntry_pattern, namedEntry_trailingSlash,
      namedEntry_meta, hnames, hsub, Bool.false_and, Bool.false_eq_true, if_false]
  · -- split the path around the omitted parameter's "undefined"
    obtain ⟨l1, l2, hsplit2⟩ := List.append_of_mem hp
    have hpseg : segsChars (resolvedSegStr resolved) (.paramP p :: l2) =
        ('/' :: ("undefined").data) ++ segsChars (resolvedSegStr resolved) l2 := by
      show ('/' :: (resolvedSegStr resolved (.paramP p)).data ++
        segsChars (resolvedSegStr resolved) l2) = _
      rw [show resolvedSegStr resolved (.paramP p) =
        jsStringOpt (lookupA resolved p) from rfl, hnonep]
      rfl
    refine ⟨⟨segsChars (resolvedSegStr resolved) l1 ++ ['/']⟩,
      ⟨segsChars (resolvedSegStr resolved) l2⟩, ?_⟩
    apply String.ext
    show ("/" ++ joinSlash (segs.map (resolvedSegStr resolved))).data = _
    rw [show segs = s0 :: rest0 from hcons,
      joinSlash_data (resolvedSegStr resolved) s0 rest0, ← hcons, hsplit2,
      segsChars_append, hpseg]
    rw [strData_append, strData_append]
    simp [List.append_assoc]

/-- Witness for C9's amended theorem: looking up the named route
`/users/:id` with an empty params record succeeds and renders
`"/users/undefined"`. -/
theorem named_missing_param_renders_undefined_witness :
    (∃ res, getRouteByName
        (buildNamedRoutes [.cfgD ⟨"/users/:id", [], none, some "user", none⟩] false)
        "user" (some []) none = .ok res ∧
      ∃ pre post, res.path = pre ++ "undefined" ++ post) ∧
    (getRouteByName
        (buildNamedRoutes [.cfgD ⟨"/users/:id", [], none, some "user", none⟩] false)
        "user" (some []) none).map RenderedRoute.path = .ok "/users/undefined" := by
  refine ⟨?_, rfl⟩
  refine named_missing_param_renders_undefined
    [.cfgD ⟨"/users/:id", [], none, some "user", none⟩]
    ⟨"/users/:id", [], none, some "user", none⟩
    [.staticP "users", .paramP "id"] "user" "id" []
    rfl (by decide) (by decide) ?_ ?_ rfl ?_ ?_
  · intro s h
    simp only [List.mem_cons, List.not_mem_nil, or_false] at h
    rcases h with h | h
    · cases h
      decide
    · cases h
  · simp
  · intro k pr raw hkp hraw
    rw [show (collectParams (splitSegs ("/users/:id" : String))
      ([] : List (String × Parser))).2 = [] from rfl] at hkp
    cases hkp
  · intro n h
    refine ⟨?_, ?_⟩
    · show noColon ("undefined" : String) = true
      decide
    · show noDollar ("undefined" : String) = true
      decide

end Routish
